import Mathlib

/-!
Verification development for the in-process LRU+TTL cache of the post-service
repository (`src/utils/cache.js`).

The JavaScript `Map` that backs `LRUCache.cache` is modelled as an association
list `List (String × CacheEntry)` in insertion order: the head of the list is
the oldest (least-recently-used) entry and the tail end is the newest, exactly
matching `Map` iteration order.  JavaScript `Map` keys are unique, so the
replace-all / delete-all list operations below coincide with the single-slot
`Map` operations on every state whose key list is duplicate-free; theorems that
depend on key uniqueness carry that `Nodup` hypothesis explicitly.

`Date.now()` is passed in explicitly as a natural-number millisecond clock
`now`; each modelled operation makes all of its expiry comparisons against the
single `now` it is given, mirroring one synchronous call.  The per-key
`setTimeout` timers of the source are pure asynchronous cleanup (they only ever
re-run `delete` on an already-expired key) and have no effect during a
synchronous call, so the model omits the `timers` map.
-/

set_option autoImplicit false

/-- JavaScript values as far as the cache is concerned: `null`, `undefined`,
or an ordinary payload (number / string / boolean). -/
inductive JsVal where
  | vnull
  | vundef
  | vbool (b : Bool)
  | vnum (n : Int)
  | vstr (s : String)
  deriving DecidableEq

/-- One stored cache slot: the payload `data` and the absolute expiry
timestamp `expiry` (milliseconds), as built by `LRUCache.set`. -/
structure CacheEntry where
  data : JsVal
  expiry : Nat
  deriving DecidableEq

/-- The backing store: a JavaScript `Map` as an association list in insertion
order (head = oldest). -/
abbrev JsMap := List (String × CacheEntry)

/-- Hit/miss/set/delete counters (`this.stats` in the source). -/
structure Stats where
  hits : Nat
  misses : Nat
  sets : Nat
  deletes : Nat
  deriving DecidableEq

/-- First-match lookup, i.e. `Map.prototype.get` / `Map.prototype.has`. -/
def jsLookup (l : JsMap) (k : String) : Option CacheEntry :=
  match l with
  | [] => none
  | (k2, e) :: rest => if k2 = k then some e else jsLookup rest k

/-- `Map.prototype.delete`: removes the entry for `k`.  (On a duplicate-free
key list this removes exactly the one slot the `Map` holds.) -/
def jsMapDelete (l : JsMap) (k : String) : JsMap :=
  match l with
  | [] => []
  | (k2, e) :: rest =>
    if k2 = k then jsMapDelete rest k else (k2, e) :: jsMapDelete rest k

/-- In-place value replacement for an existing key: `Map.prototype.set` keeps
the insertion position of a key that is already present. -/
def jsMapReplace (l : JsMap) (k : String) (e : CacheEntry) : JsMap :=
  match l with
  | [] => []
  | (k2, e2) :: rest =>
    if k2 = k then (k, e) :: jsMapReplace rest k e
    else (k2, e2) :: jsMapReplace rest k e

/-- `Map.prototype.set`: replace in place when the key is present, otherwise
append at the newest position. -/
def jsMapSet (l : JsMap) (k : String) (e : CacheEntry) : JsMap :=
  if (jsLookup l k).isSome then jsMapReplace l k e else l ++ [(k, e)]

/-- The `LRUCache` instance state: capacity `maxSize`, default TTL `ttl`,
the backing map and the counters (constructor fields of the source class). -/
structure LRUCache where
  maxSize : Nat
  ttl : Nat
  cache : JsMap
  stats : Stats
  deriving DecidableEq

/-- `new LRUCache(maxSize, ttl)`: empty map, zeroed counters. -/
def mkLRUCache (maxSize ttl : Nat) : LRUCache :=
  { maxSize := maxSize, ttl := ttl, cache := [], stats := ⟨0, 0, 0, 0⟩ }

/-! ### IEEE 754 binary64 arithmetic, exactly, over ℚ

The hit-rate computation `hits / total * 100` runs on JavaScript `Number`s,
i.e. IEEE 754 binary64: each operation computes the exact rational result
and rounds it to 53 significant bits, ties to even.  Every double is a
rational, so the pipeline is modelled exactly: `roundDouble` is the binary64
rounding function for nonnegative values (the only ones that arise here; the
values stay in `[0, 100]`, far from the overflow threshold `2^1024`, and the
subnormal clamp at `2^(-1074)` is included for faithfulness on extreme
counter values). -/

/-- Round to the nearest integer, ties to even — the rounding binary64
arithmetic applies to the scaled significand. -/
def roundHalfEven (x : ℚ) : ℤ :=
  if x - ⌊x⌋ < 1 / 2 then ⌊x⌋
  else if 1 / 2 < x - ⌊x⌋ then ⌊x⌋ + 1
  else if 2 ∣ ⌊x⌋ then ⌊x⌋ else ⌊x⌋ + 1

/-- The binary64 scaling exponent of a positive rational: the significand
`x / 2 ^ dblExp x` lands in `[2^52, 2^53)` for normal values, clamped below
at the subnormal exponent `−1074`. -/
def dblExp (x : ℚ) : ℤ :=
  max (Int.log 2 x - 52) (-1074)

/-- Round a nonnegative rational to the nearest IEEE 754 binary64 value,
ties to even: the exact value any single JavaScript `Number` operation here
produces. -/
def roundDouble (x : ℚ) : ℚ :=
  if x ≤ 0 then 0
  else (roundHalfEven (x / 2 ^ dblExp x) : ℚ) * 2 ^ dblExp x

/-- JavaScript `/` on (nonnegative) doubles: exact quotient, rounded back to
binary64. -/
def jsDiv (a b : ℚ) : ℚ :=
  roundDouble (a / b)

/-- JavaScript `*` on (nonnegative) doubles: exact product, rounded back to
binary64. -/
def jsMul (a b : ℚ) : ℚ :=
  roundDouble (a * b)

namespace LRUCache

/-- Source `_isExpired`: `Date.now() > entry.expiry` (strict comparison). -/
def isExpired (now : Nat) (e : CacheEntry) : Bool :=
  decide (now > e.expiry)

/-- Source `_evictExpired`: walks the map and `delete`s every entry with
`now > entry.expiry`; each such `delete` increments `stats.deletes`. -/
def evictExpired (s : LRUCache) (now : Nat) : LRUCache :=
  let live := s.cache.filter (fun p => !isExpired now p.2)
  { s with
      cache := live,
      stats := { s.stats with
                  deletes := s.stats.deletes + (s.cache.length - live.length) } }

/-- Source `delete`: removes the entry when present (counting it in
`stats.deletes`), clears the timer bookkeeping, and always returns `true`. -/
def delete (s : LRUCache) (k : String) : Bool × LRUCache :=
  if (jsLookup s.cache k).isSome then
    (true, { s with
              cache := jsMapDelete s.cache k,
              stats := { s.stats with deletes := s.stats.deletes + 1 } })
  else
    (true, s)

/-- Source `_moveToFront`: re-reads the value, `Map.delete`s the key and
re-`Map.set`s it, which moves the entry to the newest position.  Only ever
called on a present key; on an absent key the source would store the pair
`(key, undefined)`, which the model leaves as the unchanged map. -/
def moveToFront (l : JsMap) (k : String) : JsMap :=
  match jsLookup l k with
  | some e => jsMapDelete l k ++ [(k, e)]
  | none => l

/-- Source `get`: sweep expired entries, then miss (`null`) on an absent key,
delete-and-miss on an expired key, and otherwise count a hit, promote the
entry to most-recently-used and return its payload. -/
def get (s : LRUCache) (now : Nat) (k : String) : JsVal × LRUCache :=
  let s1 := evictExpired s now
  match jsLookup s1.cache k with
  | none =>
    (JsVal.vnull,
      { s1 with stats := { s1.stats with misses := s1.stats.misses + 1 } })
  | some e =>
    if isExpired now e then
      -- unreachable after the sweep at the same clock value, kept from source
      let s2 := (delete s1 k).2
      (JsVal.vnull,
        { s2 with stats := { s2.stats with misses := s2.stats.misses + 1 } })
    else
      (e.data,
        { s1 with
            cache := moveToFront s1.cache k,
            stats := { s1.stats with hits := s1.stats.hits + 1 } })

/-- Source `set`'s TTL resolution `customTtl || this.ttl`: `null` (here
`none`) and the falsy `0` both fall back to the instance default. -/
def resolveTtl (s : LRUCache) (customTtl : Option Nat) : Nat :=
  match customTtl with
  | none => s.ttl
  | some t => if t = 0 then s.ttl else t

/-- Source `set`: sweep expired entries; when the map is at or above capacity
and the key is new, `delete` the first (least-recently-used) key of the map;
then store `{ data, expiry := now + ttl }` and count the set.  Always returns
`true`. -/
def set (s : LRUCache) (now : Nat) (k : String) (v : JsVal)
    (customTtl : Option Nat) : Bool × LRUCache :=
  let s1 := evictExpired s now
  let t := resolveTtl s customTtl
  let expiry := now + t
  let s2 :=
    if s1.maxSize ≤ s1.cache.length ∧ ¬(jsLookup s1.cache k).isSome then
      match s1.cache.head? with
      | some (fk, _) => (delete s1 fk).2
      | none => s1   -- keys().next().value is undefined; delete is a no-op
    else s1
  (true,
    { s2 with
        cache := jsMapSet s2.cache k ⟨v, expiry⟩,
        stats := { s2.stats with sets := s2.stats.sets + 1 } })

/-- Source `has`: sweep, then `cache.has(key) && !_isExpired(cache.get(key))`. -/
def has (s : LRUCache) (now : Nat) (k : String) : Bool × LRUCache :=
  let s1 := evictExpired s now
  match jsLookup s1.cache k with
  | none => (false, s1)
  | some e => (!isExpired now e, s1)

/-- Source `size`: sweep, then the number of entries left in the map. -/
def size (s : LRUCache) (now : Nat) : Nat × LRUCache :=
  let s1 := evictExpired s now
  (s1.cache.length, s1)

/-- Source `clear`: drop every entry and timer and zero the counters. -/
def clear (s : LRUCache) : LRUCache :=
  { s with cache := [], stats := ⟨0, 0, 0, 0⟩ }

/-- The snapshot object returned by `getStats`.  The source renders
`hitRate` as the string `(hits / total * 100).toFixed(2) + "%"`; the model
keeps the same number in hundredths of a percent (`"66.67%"` ↦ `6667`). -/
structure StatsSnapshot where
  hits : Nat
  misses : Nat
  sets : Nat
  deletes : Nat
  hitRateHundredths : Nat
  size : Nat
  maxSize : Nat
  deriving DecidableEq

/-- `Number.prototype.toFixed(2)` in hundredths, applied to the exact
rational value of a nonnegative double: ECMA-262 picks the integer `n`
closest to `x * 100` and the larger one on ties, i.e. half-up rounding on
the exact value of the binary64 argument. -/
def toFixed2 (x : ℚ) : Nat :=
  ⌊x * 100 + 1 / 2⌋₊

/-- Source `getStats`: spreads the counters (before the sweep that `size()`
performs), renders the hit rate — `hits / total * 100` computed in binary64,
then `toFixed(2)` — and reports live size and capacity. -/
def getStats (s : LRUCache) (now : Nat) : StatsSnapshot :=
  let total := s.stats.hits + s.stats.misses
  { hits := s.stats.hits
    misses := s.stats.misses
    sets := s.stats.sets
    deletes := s.stats.deletes
    hitRateHundredths :=
      if 0 < total then
        toFixed2 (jsMul (jsDiv (s.stats.hits : ℚ) (total : ℚ)) 100)
      else 0
    size := (evictExpired s now).cache.length
    maxSize := s.maxSize }

end LRUCache

/-- The four named instances touched by `cacheHelpers.invalidatePostCaches`
(`postCache`, `userCache`, `timelineCache`, `queryCache` in the source). -/
structure CacheSystem where
  postCache : LRUCache
  userCache : LRUCache
  timelineCache : LRUCache
  queryCache : LRUCache
  deriving DecidableEq

namespace generateCacheKey

/-- Source key builder: a single post by id. -/
def post (id : String) : String :=
  "post:" ++ id

/-- Source key builder: one page of a user's posts (defaults: page 1,
limit 10 at the call sites). -/
def userPosts (userId : String) (page limit : Nat) : String :=
  "user_posts:" ++ userId ++ ":" ++ toString page ++ ":" ++ toString limit

/-- Source key builder: one page of a user's timeline. -/
def timeline (userId : String) (page limit : Nat) : String :=
  "timeline:" ++ userId ++ ":" ++ toString page ++ ":" ++ toString limit

/-- Source key builder: the per-post aggregate stats key. -/
def postStats (postId : String) : String :=
  "post_stats:" ++ postId

end generateCacheKey

/-- Fold `LRUCache.delete` over a list of keys, in order. -/
def deleteAll (s : LRUCache) (ks : List String) : LRUCache :=
  ks.foldl (fun st k2 => (LRUCache.delete st k2).2) s

namespace cacheHelpers

/-- The keys swept from the user cache by `invalidatePostCaches`: the nested
`for (page = 1..10) for (limit of [10, 20, 50])` loops, in loop order. -/
def userPostsSweep (userId : String) : List String :=
  (List.range' 1 10).flatMap
    (fun page => [10, 20, 50].map (fun lim => generateCacheKey.userPosts userId page lim))

/-- The keys swept from the timeline cache by `invalidatePostCaches`: pages
1..5 with the builder's default limit 10. -/
def timelineSweep (userId : String) : List String :=
  (List.range' 1 5).map (fun page => generateCacheKey.timeline userId page 10)

/-- Source `cacheHelpers.invalidatePostCaches`: deletes the post's own key
from the post cache, its stats key from the query cache, and the bounded
page/limit sweeps from the user and timeline caches. -/
def invalidatePostCaches (sys : CacheSystem) (postId userId : String) :
    CacheSystem :=
  { sys with
      postCache := (sys.postCache.delete (generateCacheKey.post postId)).2,
      queryCache := (sys.queryCache.delete (generateCacheKey.postStats postId)).2,
      userCache := deleteAll sys.userCache (userPostsSweep userId),
      timelineCache := deleteAll sys.timelineCache (timelineSweep userId) }

/-- Source `cacheHelpers.getOrSet`.  The caller-supplied asynchronous
`fallbackFn` is modelled by its outcome `fres` (a value or a raised error);
the third component of the result counts how many times the function was
invoked (0 or 1), which makes the no-invocation claims statable. -/
def getOrSet (s : LRUCache) (now : Nat) (k : String)
    (fres : Except String JsVal) (ttl : Option Nat) :
    Except String JsVal × LRUCache × Nat :=
  let r := LRUCache.get s now k
  if r.1 ≠ JsVal.vnull then
    (Except.ok r.1, r.2, 0)
  else
    match fres with
    | Except.error e => (Except.error e, r.2, 1)
    | Except.ok v =>
      if v ≠ JsVal.vnull ∧ v ≠ JsVal.vundef then
        (Except.ok v, (LRUCache.set r.2 now k v ttl).2, 1)
      else
        (Except.ok v, r.2, 1)

end cacheHelpers

/-- One recorded `set` call: key, value, optional custom TTL, and the clock
value at which the call runs. -/
structure SetCall where
  key : String
  value : JsVal
  customTtl : Option Nat
  now : Nat
  deriving DecidableEq

/-- Run a sequence of `set` calls against an instance, in order. -/
def applyCalls (s : LRUCache) (calls : List SetCall) : LRUCache :=
  calls.foldl (fun st c => (LRUCache.set st c.now c.key c.value c.customTtl).2) s

/-- Insert a list of keys with one shared value at one clock value, with the
default TTL — the "insert `n` other new distinct keys" shape of the spec. -/
def setMany (s : LRUCache) (now : Nat) (ks : List String) (v : JsVal) : LRUCache :=
  ks.foldl (fun st k2 => (LRUCache.set st now k2 v none).2) s

/-- The key list of a map, in insertion order. -/
def keysOf (l : JsMap) : List String :=
  l.map Prod.fst

/-! ### Association-list lemmas -/

theorem jsLookup_eq_none_iff (l : JsMap) (k : String) :
    jsLookup l k = none ↔ k ∉ keysOf l := by
  induction l with
  | nil => simp [jsLookup, keysOf]
  | cons p rest ih =>
    obtain ⟨k2, e2⟩ := p
    by_cases h : k2 = k
    · subst h
      simp [jsLookup, keysOf]
    · simp [jsLookup, h, keysOf] at ih ⊢
      exact ⟨fun hl => ⟨fun he => h he.symm, ih.mp hl⟩, fun hc => ih.mpr hc.2⟩

theorem jsLookup_mem {l : JsMap} {k : String} {e : CacheEntry}
    (h : jsLookup l k = some e) : (k, e) ∈ l := by
  induction l with
  | nil => simp [jsLookup] at h
  | cons p rest ih =>
    obtain ⟨k2, e2⟩ := p
    by_cases hk : k2 = k
    · subst hk
      simp [jsLookup] at h
      subst h
      exact List.mem_cons_self _ _
    · simp [jsLookup, hk] at h
      exact List.mem_cons_of_mem _ (ih h)

theorem jsLookup_append_of_none {l : JsMap} {k : String} (l2 : JsMap)
    (h : jsLookup l k = none) : jsLookup (l ++ l2) k = jsLookup l2 k := by
  induction l with
  | nil => simp
  | cons p rest ih =>
    obtain ⟨k2, e2⟩ := p
    by_cases hk : k2 = k
    · simp [jsLookup, hk] at h
    · simp [jsLookup, hk] at h ⊢
      exact ih h

theorem jsLookup_append_of_some {l : JsMap} {k : String} {e : CacheEntry}
    (l2 : JsMap) (h : jsLookup l k = some e) :
    jsLookup (l ++ l2) k = some e := by
  induction l with
  | nil => simp [jsLookup] at h
  | cons p rest ih =>
    obtain ⟨k2, e2⟩ := p
    by_cases hk : k2 = k
    · simp [jsLookup, hk] at h ⊢
      exact h
    · simp [jsLookup, hk] at h ⊢
      exact ih h

theorem jsLookup_filter_of_some {l : JsMap} {k : String} {e : CacheEntry}
    {pr : String × CacheEntry → Bool}
    (h : jsLookup l k = some e) (hp : pr (k, e) = true) :
    jsLookup (l.filter pr) k = some e := by
  induction l with
  | nil => simp [jsLookup] at h
  | cons p rest ih =>
    obtain ⟨k2, e2⟩ := p
    by_cases hk : k2 = k
    · subst hk
      simp [jsLookup] at h
      subst h
      simp [List.filter, hp, jsLookup]
    · simp [jsLookup, hk] at h
      cases hpr : pr (k2, e2) with
      | true => simp [List.filter, hpr, jsLookup, hk, ih h]
      | false => simp [List.filter, hpr, ih h]

theorem jsLookup_filter_of_all_false {l : JsMap} {k : String}
    {pr : String × CacheEntry → Bool}
    (h : ∀ e : CacheEntry, (k, e) ∈ l → pr (k, e) = false) :
    jsLookup (l.filter pr) k = none := by
  rw [jsLookup_eq_none_iff]
  intro hmem
  simp only [keysOf, List.mem_map] at hmem
  obtain ⟨⟨k2, e2⟩, hm, hk⟩ := hmem
  rw [List.mem_filter] at hm
  cases hk
  have := h e2 hm.1
  rw [hm.2] at this
  simp at this

theorem jsLookup_filter_of_none {l : JsMap} {k : String}
    (pr : String × CacheEntry → Bool) (h : jsLookup l k = none) :
    jsLookup (l.filter pr) k = none := by
  apply jsLookup_filter_of_all_false
  intro e hmem
  rw [jsLookup_eq_none_iff] at h
  exact absurd (List.mem_map_of_mem Prod.fst hmem) h

theorem jsMapDelete_lookup_self (l : JsMap) (k : String) :
    jsLookup (jsMapDelete l k) k = none := by
  induction l with
  | nil => simp [jsMapDelete, jsLookup]
  | cons p rest ih =>
    obtain ⟨k2, e2⟩ := p
    by_cases hk : k2 = k
    · simpa [jsMapDelete, hk] using ih
    · simpa [jsMapDelete, hk, jsLookup] using ih

theorem jsMapDelete_lookup_other {k2 k : String} (l : JsMap) (h : k2 ≠ k) :
    jsLookup (jsMapDelete l k2) k = jsLookup l k := by
  induction l with
  | nil => simp [jsMapDelete]
  | cons p rest ih =>
    obtain ⟨k3, e3⟩ := p
    by_cases hk : k3 = k2
    · subst hk
      have h3 : ¬k3 = k := fun hh => h hh
      simp [jsMapDelete, jsLookup, h3, ih]
    · by_cases h3 : k3 = k
      · subst h3
        simp [jsMapDelete, hk, jsLookup]
      · simp [jsMapDelete, hk, jsLookup, h3, ih]

theorem jsMapDelete_of_none {l : JsMap} {k : String}
    (h : jsLookup l k = none) : jsMapDelete l k = l := by
  induction l with
  | nil => simp [jsMapDelete]
  | cons p rest ih =>
    obtain ⟨k2, e2⟩ := p
    by_cases hk : k2 = k
    · simp [jsLookup, hk] at h
    · simp [jsLookup, hk] at h
      simp [jsMapDelete, hk, ih h]

theorem jsMapDelete_length_le (l : JsMap) (k : String) :
    (jsMapDelete l k).length ≤ l.length := by
  induction l with
  | nil => simp [jsMapDelete]
  | cons p rest ih =>
    obtain ⟨k2, e2⟩ := p
    by_cases hk : k2 = k
    · simp only [jsMapDelete, hk, if_pos rfl, List.length_cons]
      exact Nat.le_succ_of_le ih
    · simp only [jsMapDelete, if_neg hk, List.length_cons]
      exact Nat.succ_le_succ ih

theorem jsMapDelete_length_lt {l : JsMap} {k : String}
    (h : (jsLookup l k).isSome) : (jsMapDelete l k).length < l.length := by
  induction l with
  | nil => simp [jsLookup] at h
  | cons p rest ih =>
    obtain ⟨k2, e2⟩ := p
    by_cases hk : k2 = k
    · simp only [jsMapDelete, hk, if_pos rfl, List.length_cons]
      exact Nat.lt_succ_of_le (jsMapDelete_length_le rest k)
    · simp only [jsLookup, if_neg hk] at h
      simp only [jsMapDelete, if_neg hk, List.length_cons]
      exact Nat.succ_lt_succ (ih h)

theorem jsMapReplace_lookup_self {l : JsMap} {k : String} (e : CacheEntry)
    (h : (jsLookup l k).isSome) :
    jsLookup (jsMapReplace l k e) k = some e := by
  induction l with
  | nil => simp [jsLookup] at h
  | cons p rest ih =>
    obtain ⟨k2, e2⟩ := p
    by_cases hk : k2 = k
    · simp [jsMapReplace, hk, jsLookup]
    · simp only [jsLookup, if_neg hk] at h
      simp only [jsMapReplace, if_neg hk, jsLookup]
      exact ih h

theorem jsMapSet_lookup_self (l : JsMap) (k : String) (e : CacheEntry) :
    jsLookup (jsMapSet l k e) k = some e := by
  unfold jsMapSet
  by_cases h : (jsLookup l k).isSome
  · simp only [h, if_pos rfl]
    exact jsMapReplace_lookup_self e h
  · simp only [h]
    rw [if_neg (by simp [h])]
    rw [jsLookup_append_of_none _ (Option.not_isSome_iff_eq_none.mp h)]
    simp [jsLookup]

theorem jsMapReplace_lookup_other {k2 k : String} (l : JsMap) (e : CacheEntry)
    (h : k2 ≠ k) : jsLookup (jsMapReplace l k2 e) k = jsLookup l k := by
  induction l with
  | nil => simp [jsMapReplace, jsLookup]
  | cons p rest ih =>
    obtain ⟨k3, e3⟩ := p
    by_cases hk : k3 = k2
    · subst hk
      have h3 : ¬k3 = k := fun hh => h hh
      simp [jsMapReplace, jsLookup, h3, Ne.symm h, ih]
    · by_cases h3 : k3 = k
      · subst h3
        simp [jsMapReplace, hk, jsLookup]
      · simp [jsMapReplace, hk, jsLookup, h3, ih]

theorem jsMapSet_lookup_other {k2 k : String} (l : JsMap) (e : CacheEntry)
    (h : k2 ≠ k) : jsLookup (jsMapSet l k2 e) k = jsLookup l k := by
  unfold jsMapSet
  by_cases hs : (jsLookup l k2).isSome
  · rw [if_pos hs]
    exact jsMapReplace_lookup_other l e h
  · rw [if_neg hs]
    cases hcase : jsLookup l k with
    | none => rw [jsLookup_append_of_none _ hcase]; simp [jsLookup, h]
    | some e4 => exact jsLookup_append_of_some _ hcase

theorem jsMapSet_mem_eq {l : JsMap} {k : String} {e e2 : CacheEntry}
    (h : (k, e2) ∈ jsMapSet l k e) : e2 = e := by
  unfold jsMapSet at h
  by_cases hs : (jsLookup l k).isSome
  · rw [if_pos hs] at h
    clear hs
    induction l with
    | nil => simp [jsMapReplace] at h
    | cons p rest ih =>
      obtain ⟨k3, e3⟩ := p
      by_cases hk : k3 = k
      · simp only [jsMapReplace, if_pos hk, List.mem_cons] at h
        rcases h with h | h
        · exact (Prod.mk.injEq _ _ _ _ ▸ h).2
        · exact ih h
      · simp only [jsMapReplace, if_neg hk, List.mem_cons] at h
        rcases h with h | h
        · exact absurd (Prod.mk.injEq _ _ _ _ ▸ h).1.symm hk
        · exact ih h
  · rw [if_neg hs] at h
    rw [List.mem_append] at h
    rcases h with h | h
    · have hn := Option.not_isSome_iff_eq_none.mp hs
      rw [jsLookup_eq_none_iff] at hn
      exact absurd (List.mem_map_of_mem Prod.fst h) hn
    · simpa using h

theorem keysOf_jsMapDelete (l : JsMap) (k : String) :
    keysOf (jsMapDelete l k) = (keysOf l).filter (fun x => !(x == k)) := by
  induction l with
  | nil => simp [jsMapDelete, keysOf]
  | cons p rest ih =>
    obtain ⟨k2, e2⟩ := p
    by_cases hk : k2 = k
    · simp [jsMapDelete, hk, keysOf, List.filter] at ih ⊢
      exact ih
    · have hb : (k2 == k) = false := beq_eq_false_iff_ne.mpr hk
      simp [jsMapDelete, hk, keysOf, List.filter, hb] at ih ⊢
      exact ih

theorem keysOf_jsMapReplace (l : JsMap) (k : String) (e : CacheEntry) :
    keysOf (jsMapReplace l k e) = keysOf l := by
  induction l with
  | nil => simp [jsMapReplace, keysOf]
  | cons p rest ih =>
    obtain ⟨k2, e2⟩ := p
    by_cases hk : k2 = k
    · subst hk
      simp [jsMapReplace, keysOf] at ih ⊢
      exact ih
    · simp [jsMapReplace, hk, keysOf] at ih ⊢
      exact ih

theorem keysOf_append (l l2 : JsMap) :
    keysOf (l ++ l2) = keysOf l ++ keysOf l2 := by
  simp [keysOf]

theorem nodup_keysOf_jsMapDelete {l : JsMap} (k : String)
    (h : (keysOf l).Nodup) : (keysOf (jsMapDelete l k)).Nodup := by
  rw [keysOf_jsMapDelete]
  exact h.filter _

theorem not_mem_keysOf_jsMapDelete (l : JsMap) (k : String) :
    k ∉ keysOf (jsMapDelete l k) := by
  rw [← jsLookup_eq_none_iff]
  exact jsMapDelete_lookup_self l k

theorem mem_keysOf_jsMapDelete {l : JsMap} {k k2 : String}
    (h : k ∈ keysOf (jsMapDelete l k2)) : k ∈ keysOf l := by
  rw [keysOf_jsMapDelete] at h
  exact (List.mem_filter.mp h).1

theorem nodup_keysOf_jsMapSet {l : JsMap} {k : String} (e : CacheEntry)
    (h : (keysOf l).Nodup) : (keysOf (jsMapSet l k e)).Nodup := by
  unfold jsMapSet
  by_cases hs : (jsLookup l k).isSome
  · rw [if_pos hs, keysOf_jsMapReplace]
    exact h
  · rw [if_neg hs, keysOf_append]
    have hk : k ∉ keysOf l := by
      rw [← jsLookup_eq_none_iff]
      exact Option.not_isSome_iff_eq_none.mp hs
    rw [List.nodup_append]
    refine ⟨h, by simp [keysOf], ?_⟩
    intro a ha hb
    have hak : a = k := by simpa [keysOf] using hb
    subst hak
    exact hk ha

theorem jsMapSet_length_of_some {l : JsMap} {k : String} (e : CacheEntry)
    (h : (jsLookup l k).isSome) :
    (jsMapSet l k e).length = l.length := by
  unfold jsMapSet
  rw [if_pos h]
  clear h
  induction l with
  | nil => simp [jsMapReplace]
  | cons p rest ih =>
    obtain ⟨k2, e2⟩ := p
    by_cases hk : k2 = k <;> simp [jsMapReplace, hk, ih]

theorem jsMapSet_length_of_none {l : JsMap} {k : String} (e : CacheEntry)
    (h : jsLookup l k = none) :
    (jsMapSet l k e).length = l.length + 1 := by
  unfold jsMapSet
  rw [if_neg (by simp [h])]
  simp

/-! ### Facts about the expiry sweep -/

namespace LRUCache

theorem evictExpired_cache (s : LRUCache) (now : Nat) :
    (evictExpired s now).cache = s.cache.filter (fun p => !isExpired now p.2) :=
  rfl

theorem evictExpired_maxSize (s : LRUCache) (now : Nat) :
    (evictExpired s now).maxSize = s.maxSize :=
  rfl

theorem evictExpired_ttl (s : LRUCache) (now : Nat) :
    (evictExpired s now).ttl = s.ttl :=
  rfl

theorem evictExpired_hits (s : LRUCache) (now : Nat) :
    (evictExpired s now).stats.hits = s.stats.hits :=
  rfl

theorem evictExpired_misses (s : LRUCache) (now : Nat) :
    (evictExpired s now).stats.misses = s.stats.misses :=
  rfl

theorem evictExpired_sets (s : LRUCache) (now : Nat) :
    (evictExpired s now).stats.sets = s.stats.sets :=
  rfl

theorem not_isExpired_iff (now : Nat) (e : CacheEntry) :
    (!isExpired now e) = true ↔ now ≤ e.expiry := by
  simp [isExpired, Nat.not_lt]

theorem evictExpired_of_live {s : LRUCache} {now : Nat}
    (h : ∀ p ∈ s.cache, now ≤ p.2.expiry) : evictExpired s now = s := by
  have hfilter : s.cache.filter (fun p => !isExpired now p.2) = s.cache := by
    rw [List.filter_eq_self]
    intro p hp
    exact (not_isExpired_iff now p.2).mpr (h p hp)
  obtain ⟨ms, t, c, st⟩ := s
  simp only [evictExpired] at hfilter ⊢
  rw [hfilter]
  simp

/-! ### Characterizations of the public operations -/

theorem get_miss {s : LRUCache} {now : Nat} {k : String}
    (h : jsLookup (evictExpired s now).cache k = none) :
    get s now k =
      (JsVal.vnull,
        { evictExpired s now with
            stats := { (evictExpired s now).stats with
                        misses := (evictExpired s now).stats.misses + 1 } }) := by
  unfold get
  dsimp only
  rw [h]

theorem get_hit {s : LRUCache} {now : Nat} {k : String} {e : CacheEntry}
    (h : jsLookup (evictExpired s now).cache k = some e) (hl : now ≤ e.expiry) :
    get s now k =
      (e.data,
        { evictExpired s now with
            cache := moveToFront (evictExpired s now).cache k,
            stats := { (evictExpired s now).stats with
                        hits := (evictExpired s now).stats.hits + 1 } }) := by
  have hx : isExpired now e = false := by
    simp only [isExpired, decide_eq_false_iff_not]
    omega
  unfold get
  dsimp only
  rw [h]
  simp [hx]

theorem has_snd (s : LRUCache) (now : Nat) (k : String) :
    (has s now k).2 = evictExpired s now := by
  unfold has
  dsimp only
  cases jsLookup (evictExpired s now).cache k <;> rfl

theorem has_true {s : LRUCache} {now : Nat} {k : String} {e : CacheEntry}
    (h : jsLookup (evictExpired s now).cache k = some e) (hl : now ≤ e.expiry) :
    (has s now k).1 = true := by
  unfold has
  dsimp only
  rw [h]
  simp only [not_isExpired_iff]
  exact hl

theorem has_false_of_none {s : LRUCache} {now : Nat} {k : String}
    (h : jsLookup (evictExpired s now).cache k = none) :
    (has s now k).1 = false := by
  unfold has
  dsimp only
  rw [h]

theorem delete_maxSize (s : LRUCache) (k : String) :
    (delete s k).2.maxSize = s.maxSize := by
  unfold delete
  split <;> rfl

theorem delete_ttl (s : LRUCache) (k : String) :
    (delete s k).2.ttl = s.ttl := by
  unfold delete
  split <;> rfl

theorem set_fst (s : LRUCache) (now : Nat) (k : String) (v : JsVal)
    (ct : Option Nat) : (set s now k v ct).1 = true :=
  rfl

theorem set_lookup_self (s : LRUCache) (now : Nat) (k : String) (v : JsVal)
    (ct : Option Nat) :
    jsLookup (set s now k v ct).2.cache k = some ⟨v, now + resolveTtl s ct⟩ := by
  unfold set
  exact jsMapSet_lookup_self _ _ _

theorem set_mem_eq {s : LRUCache} {now : Nat} {k : String} {v : JsVal}
    {ct : Option Nat} {e2 : CacheEntry}
    (h : (k, e2) ∈ (set s now k v ct).2.cache) :
    e2 = ⟨v, now + resolveTtl s ct⟩ := by
  unfold set at h
  exact jsMapSet_mem_eq h

theorem set_maxSize (s : LRUCache) (now : Nat) (k : String) (v : JsVal)
    (ct : Option Nat) : (set s now k v ct).2.maxSize = s.maxSize := by
  unfold set
  simp only
  split
  · cases hh : (evictExpired s now).cache.head? with
    | none => simp [hh, evictExpired_maxSize]
    | some p =>
      obtain ⟨fk, fe⟩ := p
      simp [hh, delete_maxSize, evictExpired_maxSize]
  · simp [evictExpired_maxSize]

theorem set_ttl (s : LRUCache) (now : Nat) (k : String) (v : JsVal)
    (ct : Option Nat) : (set s now k v ct).2.ttl = s.ttl := by
  unfold set
  simp only
  split
  · cases hh : (evictExpired s now).cache.head? with
    | none => simp [hh, evictExpired_ttl]
    | some p =>
      obtain ⟨fk, fe⟩ := p
      simp [hh, delete_ttl, evictExpired_ttl]
  · simp [evictExpired_ttl]

end LRUCache

/-! ### Claim C3 — delete semantics -/

/-- C3 counterexample: deleting an absent key does NOT return a
"removed: false" result — the source's `delete` returns `true`
unconditionally, so on the fresh instance `new LRUCache(2, 100)` deleting
the absent key "a" reports `true` (while indeed leaving `stats.deletes`
untouched). -/
theorem c3_counterexample_delete_absent_reports_true :
    ((mkLRUCache 2 100).delete "a").1 = true ∧
    ¬((mkLRUCache 2 100).delete "a").1 = false ∧
    ((mkLRUCache 2 100).delete "a").2.stats.deletes = 0 := by
  decide

/-- C3 (amended): `delete(k)` always returns `true` (an absent key is a
no-op that still reports success, leaving the whole state unchanged and in
particular `stats.deletes` untouched); when `k` is present — expired or not —
the entry is removed and `stats.deletes` grows by exactly 1.  The other
counters are never touched. -/
theorem c3_delete_amended (s : LRUCache) (k : String) :
    (s.delete k).1 = true ∧
    jsLookup (s.delete k).2.cache k = none ∧
    (s.delete k).2.stats.deletes =
      s.stats.deletes + (if (jsLookup s.cache k).isSome then 1 else 0) ∧
    (s.delete k).2.cache =
      (if (jsLookup s.cache k).isSome then jsMapDelete s.cache k else s.cache) ∧
    ((jsLookup s.cache k).isSome = false → (s.delete k).2 = s) ∧
    (s.delete k).2.stats.hits = s.stats.hits ∧
    (s.delete k).2.stats.misses = s.stats.misses ∧
    (s.delete k).2.stats.sets = s.stats.sets := by
  unfold LRUCache.delete
  by_cases h : (jsLookup s.cache k).isSome
  · simp [h, jsMapDelete_lookup_self]
  · have hn := Option.not_isSome_iff_eq_none.mp h
    simp [h, hn]

/-- C3 witness: the amended delete behaviour evaluated on a one-entry cache
and on the empty cache. -/
theorem c3_delete_amended_witness :
    ({ mkLRUCache 2 100 with
        cache := [("a", ⟨JsVal.vnum 1, 50⟩)] } : LRUCache).delete "a"
      = (true, { mkLRUCache 2 100 with cache := [], stats := ⟨0, 0, 0, 1⟩ }) ∧
    ((mkLRUCache 2 100).delete "b").2 = mkLRUCache 2 100 :=
  ⟨by decide,
   (c3_delete_amended (mkLRUCache 2 100) "b").2.2.2.2.1 (by decide)⟩

/-! ### Claim C5 — TTL semantics -/

/-- C5 counterexample: the source resolves the TTL with
`customTtl || this.ttl`, so the explicit ttl `t = 0` falls back to the
default TTL instead of expiring at set-time: after `set("k", 7, ttl = 0)` at
time 0 on an instance with default TTL 100, the stored expiry is 100 (not 0)
and `get("k")` at time 1 — strictly after set-time + 0 — still returns 7,
where the claim demands absence. -/
theorem c5_counterexample_zero_ttl :
    jsLookup ((LRUCache.set (mkLRUCache 5 100) 0 "k" (JsVal.vnum 7)
        (some 0)).2).cache "k" = some ⟨JsVal.vnum 7, 100⟩ ∧
    (LRUCache.get ((LRUCache.set (mkLRUCache 5 100) 0 "k" (JsVal.vnum 7)
        (some 0)).2) 1 "k").1 = JsVal.vnum 7 := by
  decide

/-- C5 (amended): for every key set with an explicit NONZERO ttl `t` the
entry's expiry is set-time + `t`; with no intervening operation on the key,
`get`/`has` report it present (with its value) at any query time up to and
including set-time + `t` and absent at any time strictly after.  When no ttl
is given — and likewise for the falsy explicit ttl `0` — the default
`defaultTtl` is used instead. -/
theorem c5_ttl_amended (s : LRUCache) (now q : Nat) (k : String) (v : JsVal)
    (t : Nat) (ht : 0 < t) :
    jsLookup ((LRUCache.set s now k v (some t)).2).cache k
      = some ⟨v, now + t⟩ ∧
    (q ≤ now + t →
      (LRUCache.get ((LRUCache.set s now k v (some t)).2) q k).1 = v ∧
      (LRUCache.has ((LRUCache.set s now k v (some t)).2) q k).1 = true) ∧
    (now + t < q →
      (LRUCache.get ((LRUCache.set s now k v (some t)).2) q k).1
          = JsVal.vnull ∧
      (LRUCache.has ((LRUCache.set s now k v (some t)).2) q k).1 = false) ∧
    jsLookup ((LRUCache.set s now k v none).2).cache k
      = some ⟨v, now + s.ttl⟩ ∧
    jsLookup ((LRUCache.set s now k v (some 0)).2).cache k
      = some ⟨v, now + s.ttl⟩ := by
  have hres : LRUCache.resolveTtl s (some t) = t := by
    simp [LRUCache.resolveTtl, Nat.pos_iff_ne_zero.mp ht]
  have hself : jsLookup ((LRUCache.set s now k v (some t)).2).cache k
      = some ⟨v, now + t⟩ := by
    rw [LRUCache.set_lookup_self, hres]
  refine ⟨hself, fun hq => ?_, fun hq => ?_, ?_, ?_⟩
  · have hfl : jsLookup
        ((LRUCache.evictExpired ((LRUCache.set s now k v (some t)).2) q).cache)
        k = some ⟨v, now + t⟩ := by
      rw [LRUCache.evictExpired_cache]
      exact jsLookup_filter_of_some hself
        ((LRUCache.not_isExpired_iff q _).mpr hq)
    exact ⟨by rw [LRUCache.get_hit hfl hq], LRUCache.has_true hfl hq⟩
  · have hfl : jsLookup
        ((LRUCache.evictExpired ((LRUCache.set s now k v (some t)).2) q).cache)
        k = none := by
      rw [LRUCache.evictExpired_cache]
      apply jsLookup_filter_of_all_false
      intro e2 hmem
      have he2 : e2 = ⟨v, now + t⟩ := by
        have := LRUCache.set_mem_eq hmem
        rwa [hres] at this
      subst he2
      simp [LRUCache.isExpired]
      omega
    exact ⟨by rw [LRUCache.get_miss hfl], LRUCache.has_false_of_none hfl⟩
  · rw [LRUCache.set_lookup_self]
    rfl
  · rw [LRUCache.set_lookup_self]
    rfl

/-- C5 witness: a key set at time 0 with ttl 50 on a default-TTL-100 instance
is still returned by `get` at time 30. -/
theorem c5_ttl_amended_witness :
    (LRUCache.get ((LRUCache.set (mkLRUCache 5 100) 0 "k" (JsVal.vnum 7)
        (some 50)).2) 30 "k").1 = JsVal.vnum 7 :=
  ((c5_ttl_amended (mkLRUCache 5 100) 0 30 "k" (JsVal.vnum 7) 50
      (by decide)).2.1 (by decide)).1

/-! ### Claim C8 — stats snapshot and hit rate -/

theorem roundHalfEven_le (y : ℚ) : (roundHalfEven y : ℚ) ≤ y + 1 / 2 := by
  have h1 : (⌊y⌋ : ℚ) ≤ y := Int.floor_le y
  unfold roundHalfEven
  split
  next hlt => linarith
  next hge =>
    split
    next hgt => push_cast; linarith
    next hle =>
      split
      next => linarith
      next => push_cast; linarith

theorem le_roundHalfEven (y : ℚ) : y - 1 / 2 ≤ (roundHalfEven y : ℚ) := by
  have h2 : y < ⌊y⌋ + 1 := Int.lt_floor_add_one y
  unfold roundHalfEven
  split
  next hlt => linarith
  next hge =>
    split
    next hgt => push_cast; linarith
    next hle =>
      split
      next => linarith
      next => push_cast; linarith

theorem roundHalfEven_cast_nonneg {y : ℚ} (hy : 0 ≤ y) :
    0 ≤ (roundHalfEven y : ℚ) := by
  have h0 : (0 : ℚ) ≤ (⌊y⌋ : ℚ) := by exact_mod_cast Int.floor_nonneg.mpr hy
  unfold roundHalfEven
  split
  next => exact h0
  next =>
    split
    next => push_cast; linarith
    next =>
      split
      next => exact h0
      next => push_cast; linarith

theorem zpow_dblExp_le {x : ℚ} (hx : 0 < x) :
    (2 : ℚ) ^ dblExp x ≤ x / 2 ^ 52 + 1 / 2 ^ 1074 := by
  unfold dblExp
  rcases le_or_lt (-1074 : ℤ) (Int.log 2 x - 52) with hcl | hcl
  · rw [max_eq_left hcl]
    have hlog : (2 : ℚ) ^ Int.log 2 x ≤ x := by
      have h := Int.zpow_log_le_self (b := 2) (R := ℚ) (by norm_num) hx
      have hc : ((2 : ℕ) : ℚ) = (2 : ℚ) := by norm_num
      rwa [hc] at h
    have hsplit : (2 : ℚ) ^ (Int.log 2 x - 52)
        = (2 : ℚ) ^ Int.log 2 x * (2 : ℚ) ^ (-52 : ℤ) := by
      rw [← zpow_add₀ (by norm_num : (2 : ℚ) ≠ 0), Int.sub_eq_add_neg]
    have hval : ((2 : ℚ) ^ (-52 : ℤ)) = 1 / 2 ^ 52 := by norm_num
    rw [hsplit, hval]
    have hmul : (2 : ℚ) ^ Int.log 2 x * (1 / 2 ^ 52) ≤ x * (1 / 2 ^ 52) :=
      mul_le_mul_of_nonneg_right hlog (by positivity)
    have hnn : (0 : ℚ) ≤ 1 / 2 ^ 1074 := by positivity
    calc (2 : ℚ) ^ Int.log 2 x * (1 / 2 ^ 52)
        ≤ x * (1 / 2 ^ 52) := hmul
      _ = x / 2 ^ 52 := by ring
      _ ≤ x / 2 ^ 52 + 1 / 2 ^ 1074 := by linarith
  · rw [max_eq_right (le_of_lt hcl)]
    have hval : ((2 : ℚ) ^ (-1074 : ℤ)) = 1 / 2 ^ 1074 := by norm_num
    rw [hval]
    have hnn : (0 : ℚ) ≤ x / 2 ^ 52 := by positivity
    linarith

theorem roundDouble_err {x : ℚ} (hx : 0 ≤ x) :
    0 ≤ roundDouble x ∧
    roundDouble x ≤ x + (x / 2 ^ 53 + 1 / 2 ^ 1075) ∧
    x - (x / 2 ^ 53 + 1 / 2 ^ 1075) ≤ roundDouble x := by
  unfold roundDouble
  split
  next hle =>
    have hx0 : x = 0 := le_antisymm hle hx
    subst hx0
    norm_num
  next hpos0 =>
    have hxpos : 0 < x := lt_of_not_le hpos0
    have hp : (0 : ℚ) < 2 ^ dblExp x := zpow_pos (by norm_num) _
    have hy : x / 2 ^ dblExp x * 2 ^ dblExp x = x :=
      div_mul_cancel₀ x (ne_of_gt hp)
    have hub := roundHalfEven_le (x / 2 ^ dblExp x)
    have hlb := le_roundHalfEven (x / 2 ^ dblExp x)
    have hnn := roundHalfEven_cast_nonneg (le_of_lt (div_pos hxpos hp))
    have he := zpow_dblExp_le hxpos
    have hub2 : (roundHalfEven (x / 2 ^ dblExp x) : ℚ) * 2 ^ dblExp x
        ≤ (x / 2 ^ dblExp x + 1 / 2) * 2 ^ dblExp x :=
      mul_le_mul_of_nonneg_right hub (le_of_lt hp)
    have hlb2 : (x / 2 ^ dblExp x - 1 / 2) * 2 ^ dblExp x
        ≤ (roundHalfEven (x / 2 ^ dblExp x) : ℚ) * 2 ^ dblExp x :=
      mul_le_mul_of_nonneg_right hlb (le_of_lt hp)
    have hexp1 : (x / 2 ^ dblExp x + 1 / 2) * 2 ^ dblExp x
        = x + 2 ^ dblExp x / 2 := by
      rw [add_mul, hy]
      ring
    have hexp2 : (x / 2 ^ dblExp x - 1 / 2) * 2 ^ dblExp x
        = x - 2 ^ dblExp x / 2 := by
      rw [sub_mul, hy]
      ring
    have e1 : x / 2 ^ 52 / 2 = x / 2 ^ 53 := by
      rw [pow_succ]
      ring
    have e2 : (1 : ℚ) / 2 ^ 1074 / 2 = 1 / 2 ^ 1075 := by
      rw [pow_succ]
      ring
    refine ⟨mul_nonneg hnn (le_of_lt hp), ?_, ?_⟩
    · rw [hexp1] at hub2
      linarith
    · rw [hexp2] at hlb2
      linarith

theorem int_log_two_eq {x : ℚ} {n : ℤ} (hx : 0 < x)
    (h1 : (2 : ℚ) ^ n ≤ x) (h2 : x < (2 : ℚ) ^ (n + 1)) : Int.log 2 x = n := by
  have hc : ((2 : ℕ) : ℚ) = (2 : ℚ) := by norm_num
  have ha : (2 : ℚ) ^ Int.log 2 x ≤ x := by
    have h := Int.zpow_log_le_self (b := 2) (R := ℚ) (by norm_num) hx
    rwa [hc] at h
  have hb : x < (2 : ℚ) ^ (Int.log 2 x + 1) := by
    have h := Int.lt_zpow_succ_log_self (b := 2) (R := ℚ) (by norm_num) x
    rwa [hc] at h
  by_contra hne
  rcases lt_or_gt_of_ne hne with hlt | hgt
  · have hmono : (2 : ℚ) ^ (Int.log 2 x + 1) ≤ (2 : ℚ) ^ n :=
      zpow_le_zpow_right₀ (by norm_num) (by omega)
    linarith
  · have hmono : (2 : ℚ) ^ (n + 1) ≤ (2 : ℚ) ^ Int.log 2 x :=
      zpow_le_zpow_right₀ (by norm_num) (by omega)
    linarith

theorem exact_hundredths (h total : ℕ) (hpos : 0 < total) :
    ⌊10000 * (h : ℚ) / (total : ℚ) + 1 / 2⌋₊ = (20000 * h + total) / (2 * total) := by
  have h0 : total ≠ 0 := Nat.pos_iff_ne_zero.mp hpos
  have htq : ((total : ℕ) : ℚ) ≠ 0 := by exact_mod_cast h0
  have heq : 10000 * (h : ℚ) / (total : ℚ) + 1 / 2
      = ((20000 * h + total : ℕ) : ℚ) / ((2 * total : ℕ) : ℚ) := by
    push_cast
    rw [eq_div_iff (mul_ne_zero two_ne_zero htq)]
    field_simp
    ring
  rw [heq, Nat.floor_div_eq_div]

theorem hit_rate_pipeline_bounds (h total : ℕ) (hpos : 0 < total)
    (hle : h ≤ total) :
    LRUCache.toFixed2 (jsMul (jsDiv (h : ℚ) (total : ℚ)) 100)
        ≤ (20000 * h + total) / (2 * total) + 1 ∧
    (20000 * h + total) / (2 * total)
        ≤ LRUCache.toFixed2 (jsMul (jsDiv (h : ℚ) (total : ℚ)) 100) + 1 := by
  have hTpos : (0 : ℚ) < (total : ℚ) := by exact_mod_cast hpos
  have hx0 : (0 : ℚ) ≤ (h : ℚ) / (total : ℚ) :=
    div_nonneg (by positivity) (le_of_lt hTpos)
  have hx1 : (h : ℚ) / (total : ℚ) ≤ 1 := by
    rw [div_le_one hTpos]
    exact_mod_cast hle
  have hc53 : ((2 : ℚ) ^ 53 : ℚ) = 9007199254740992 := by norm_num
  have hcη : (1 : ℚ) / 2 ^ 1075 ≤ 1 / 9007199254740992 := by
    have h1 : ((9007199254740992 : ℚ)) ≤ 2 ^ 1075 := by
      calc (9007199254740992 : ℚ) = 2 ^ 53 := by norm_num
        _ ≤ 2 ^ 1075 := by
            apply pow_le_pow_right₀ (by norm_num)
            norm_num
    exact one_div_le_one_div_of_le (by norm_num) h1
  obtain ⟨hd1nn, hd1ub, hd1lb⟩ := roundDouble_err hx0
  rw [hc53] at hd1ub hd1lb
  have hznn : (0 : ℚ) ≤ roundDouble ((h : ℚ) / (total : ℚ)) * 100 :=
    mul_nonneg hd1nn (by norm_num)
  obtain ⟨hd2nn, hd2ub, hd2lb⟩ := roundDouble_err hznn
  rw [hc53] at hd2ub hd2lb
  -- the whole two-operation pipeline stays within 1/200 of 100 * (h/total)
  have hkey_ub : roundDouble (roundDouble ((h : ℚ) / (total : ℚ)) * 100)
      ≤ 100 * ((h : ℚ) / (total : ℚ)) + 1 / 200 := by
    linarith
  have hkey_lb : 100 * ((h : ℚ) / (total : ℚ)) - 1 / 200
      ≤ roundDouble (roundDouble ((h : ℚ) / (total : ℚ)) * 100) := by
    linarith
  have hB0 : (0 : ℚ) ≤ 10000 * (h : ℚ) / (total : ℚ) + 1 / 2 := by positivity
  have hjs : jsMul (jsDiv (h : ℚ) (total : ℚ)) 100
      = roundDouble (roundDouble ((h : ℚ) / (total : ℚ)) * 100) := rfl
  have hfub : LRUCache.toFixed2 (jsMul (jsDiv (h : ℚ) (total : ℚ)) 100)
      ≤ ⌊10000 * (h : ℚ) / (total : ℚ) + 1 / 2⌋₊ + 1 := by
    unfold LRUCache.toFixed2
    rw [hjs]
    have hstep : roundDouble (roundDouble ((h : ℚ) / (total : ℚ)) * 100) * 100
        + 1 / 2 ≤ (10000 * (h : ℚ) / (total : ℚ) + 1 / 2) + 1 := by
      have hexp : 10000 * (h : ℚ) / (total : ℚ)
          = 100 * (100 * ((h : ℚ) / (total : ℚ))) := by ring
      linarith [hkey_ub, hexp]
    calc ⌊roundDouble (roundDouble ((h : ℚ) / (total : ℚ)) * 100) * 100 + 1 / 2⌋₊
        ≤ ⌊(10000 * (h : ℚ) / (total : ℚ) + 1 / 2) + 1⌋₊ :=
          Nat.floor_le_floor hstep
      _ = ⌊10000 * (h : ℚ) / (total : ℚ) + 1 / 2⌋₊ + 1 :=
          Nat.floor_add_one hB0
  have hA0 : (0 : ℚ)
      ≤ roundDouble (roundDouble ((h : ℚ) / (total : ℚ)) * 100) * 100 + 1 / 2 := by
    have := hd2nn
    positivity
  have hflb : ⌊10000 * (h : ℚ) / (total : ℚ) + 1 / 2⌋₊
      ≤ LRUCache.toFixed2 (jsMul (jsDiv (h : ℚ) (total : ℚ)) 100) + 1 := by
    unfold LRUCache.toFixed2
    rw [hjs]
    have hstep : 10000 * (h : ℚ) / (total : ℚ) + 1 / 2
        ≤ (roundDouble (roundDouble ((h : ℚ) / (total : ℚ)) * 100) * 100
            + 1 / 2) + 1 := by
      have hexp : 10000 * (h : ℚ) / (total : ℚ)
          = 100 * (100 * ((h : ℚ) / (total : ℚ))) := by ring
      linarith [hkey_lb, hexp]
    calc ⌊10000 * (h : ℚ) / (total : ℚ) + 1 / 2⌋₊
        ≤ ⌊(roundDouble (roundDouble ((h : ℚ) / (total : ℚ)) * 100) * 100
            + 1 / 2) + 1⌋₊ := Nat.floor_le_floor hstep
      _ = ⌊roundDouble (roundDouble ((h : ℚ) / (total : ℚ)) * 100) * 100
            + 1 / 2⌋₊ + 1 := Nat.floor_add_one hA0
  rw [exact_hundredths h total hpos] at hfub hflb
  exact ⟨hfub, hflb⟩

/-- C8 counterexample: the source computes `hits / total * 100` in IEEE 754
binary64.  At `hits = 201`, `misses = 19799` the double `201 / 20000` times
100 is `4526117625507348 × 2^(−52) = 1.00499999999999989…`, strictly below
the decimal tie `1.005`, so `toFixed(2)` renders `"1.00%"` (100 hundredths)
— while `h/(h+m)` as a percentage rounded to two decimals is `1.01%` (101
hundredths), as the claim demands. -/
theorem c8_counterexample_decimal_tie :
    (LRUCache.getStats
        { mkLRUCache 5 100 with stats := ⟨201, 19799, 0, 0⟩ } 0).hitRateHundredths
      = 100 ∧
    (20000 * 201 + (201 + 19799)) / (2 * (201 + 19799)) = 101 := by
  constructor
  · have hlog1 : Int.log 2 ((201 : ℚ) / 20000) = -7 :=
      int_log_two_eq (by norm_num) (by norm_num) (by norm_num)
    have hd1 : jsDiv ((201 : ℚ)) ((20000 : ℚ)) = 5793430560649406 / 2 ^ 59 := by
      unfold jsDiv roundDouble dblExp
      rw [hlog1]
      norm_num [roundHalfEven, max_def]
    have hz : jsDiv ((201 : ℚ)) ((20000 : ℚ)) * 100
        = 72417882008117575 / 2 ^ 56 := by
      rw [hd1]
      norm_num
    have hlog2 : Int.log 2 ((72417882008117575 : ℚ) / 2 ^ 56) = 0 :=
      int_log_two_eq (by norm_num) (by norm_num) (by norm_num)
    have hd2 : jsMul (jsDiv ((201 : ℚ)) ((20000 : ℚ))) 100
        = 4526117625507348 / 2 ^ 52 := by
      unfold jsMul roundDouble dblExp
      rw [hz, hlog2]
      norm_num [roundHalfEven, max_def]
    have hcast : (LRUCache.getStats
        { mkLRUCache 5 100 with stats := ⟨201, 19799, 0, 0⟩ } 0).hitRateHundredths
        = LRUCache.toFixed2 (jsMul (jsDiv ((201 : ℚ)) ((20000 : ℚ))) 100) := by
      unfold LRUCache.getStats
      dsimp only
      rw [if_pos (by norm_num)]
      norm_num
    rw [hcast, hd2]
    unfold LRUCache.toFixed2
    rw [← Int.floor_toNat]
    norm_num
    rfl
  · norm_num

/-- C8 (amended): the snapshot's hit rate is `hits / total * 100` computed
in binary64 and rendered with `toFixed(2)`, so it can land one hundredth of
a percentage point away from `h/(h+m)` as a percentage exactly rounded to
two decimals — and never more: after `h` hits and `m` misses it lies within
±1 hundredth of `(20000 h + (h+m)) / (2 (h+m))`; it is 0% when `h + m = 0`
(no division by zero), and the snapshot also reports the four counters, the
live size, and the capacity. -/
theorem c8_hit_rate_amended (s : LRUCache) (now : Nat) :
    (s.stats.hits + s.stats.misses = 0 →
      (LRUCache.getStats s now).hitRateHundredths = 0) ∧
    (0 < s.stats.hits + s.stats.misses →
      (LRUCache.getStats s now).hitRateHundredths
          ≤ (20000 * s.stats.hits + (s.stats.hits + s.stats.misses)) /
            (2 * (s.stats.hits + s.stats.misses)) + 1 ∧
      (20000 * s.stats.hits + (s.stats.hits + s.stats.misses)) /
            (2 * (s.stats.hits + s.stats.misses))
          ≤ (LRUCache.getStats s now).hitRateHundredths + 1) ∧
    (LRUCache.getStats s now).hits = s.stats.hits ∧
    (LRUCache.getStats s now).misses = s.stats.misses ∧
    (LRUCache.getStats s now).sets = s.stats.sets ∧
    (LRUCache.getStats s now).deletes = s.stats.deletes ∧
    (LRUCache.getStats s now).size = (LRUCache.size s now).1 ∧
    (LRUCache.getStats s now).maxSize = s.maxSize := by
  refine ⟨?_, ?_, rfl, rfl, rfl, rfl, rfl, rfl⟩
  · intro h0
    unfold LRUCache.getStats
    dsimp only
    rw [if_neg (by omega)]
  · intro hpos
    have hrate : (LRUCache.getStats s now).hitRateHundredths
        = LRUCache.toFixed2
            (jsMul (jsDiv (s.stats.hits : ℚ)
              ((s.stats.hits + s.stats.misses : ℕ) : ℚ)) 100) := by
      unfold LRUCache.getStats
      dsimp only
      rw [if_pos hpos]
    rw [hrate]
    exact hit_rate_pipeline_bounds s.stats.hits (s.stats.hits + s.stats.misses)
      hpos (Nat.le_add_right _ _)

/-- C8 witness: the amended accuracy bounds at the decimal-tie
counterexample input itself (201 hits, 19799 misses). -/
theorem c8_hit_rate_amended_witness :
    (LRUCache.getStats
        { mkLRUCache 5 100 with stats := ⟨201, 19799, 0, 0⟩ } 0).hitRateHundredths
        ≤ (20000 * 201 + (201 + 19799)) / (2 * (201 + 19799)) + 1 ∧
    (20000 * 201 + (201 + 19799)) / (2 * (201 + 19799))
        ≤ (LRUCache.getStats
            { mkLRUCache 5 100 with stats := ⟨201, 19799, 0, 0⟩ } 0).hitRateHundredths
          + 1 :=
  (c8_hit_rate_amended
    { mkLRUCache 5 100 with stats := ⟨201, 19799, 0, 0⟩ } 0).2.1 (by decide)

/-! ### Claim C4 — has -/

theorem jsLookup_filter_nodup {l : JsMap} {k : String}
    (pr : String × CacheEntry → Bool) (h : (keysOf l).Nodup) :
    jsLookup (l.filter pr) k = (jsLookup l k).filter (fun e => pr (k, e)) := by
  induction l with
  | nil => simp [jsLookup]
  | cons p rest ih =>
    obtain ⟨k2, e2⟩ := p
    have hnd : (keysOf rest).Nodup := (List.nodup_cons.mp h).2
    have hnm : k2 ∉ keysOf rest := (List.nodup_cons.mp h).1
    by_cases hk : k2 = k
    · subst hk
      have hrest : jsLookup rest k2 = none := (jsLookup_eq_none_iff rest k2).mpr hnm
      cases hpr : pr (k2, e2) with
      | true => simp [List.filter, hpr, jsLookup, Option.filter]
      | false =>
        simp only [List.filter, hpr, jsLookup, Option.filter]
        rw [jsLookup_filter_of_none pr hrest]
        simp [Option.filter, hpr]
    · cases hpr : pr (k2, e2) with
      | true => simp [List.filter, hpr, jsLookup, hk, ih hnd]
      | false => simp [List.filter, hpr, jsLookup, hk, ih hnd]

/-- C4 counterexample: `has` is NOT a pure predicate — on an instance holding
one expired entry (expiry 5, queried at time 10) a single `has` call removes
the entry and bumps `stats.deletes` from 0 to 1, because `has` runs the
`_evictExpired` sweep, which calls `delete` on every expired entry. -/
theorem c4_counterexample_has_mutates :
    ({ mkLRUCache 3 100 with
        cache := [("a", ⟨JsVal.vnum 1, 5⟩)] } : LRUCache).stats.deletes = 0 ∧
    ((({ mkLRUCache 3 100 with
        cache := [("a", ⟨JsVal.vnum 1, 5⟩)] } : LRUCache).has 10 "a").2).stats.deletes
      = 1 ∧
    ((({ mkLRUCache 3 100 with
        cache := [("a", ⟨JsVal.vnum 1, 5⟩)] } : LRUCache).has 10 "a").2).cache
      = [] := by
  decide

/-- C4 (amended): `has(k)` returns true exactly when `k` is present and
unexpired.  It is pure up to the lazy expiry sweep: it never touches the
hits/misses/sets counters, and it leaves the live entries (and their relative
recency order — the sweep is an order-preserving filter) intact, but it does
remove every expired entry, counting each removal in `stats.deletes`; when
nothing is expired at the query time `has` changes nothing at all. -/
theorem c4_has_amended (s : LRUCache) (now : Nat) (k : String)
    (hwf : (keysOf s.cache).Nodup) :
    ((LRUCache.has s now k).1 = true ↔
      ∃ e, jsLookup s.cache k = some e ∧ now ≤ e.expiry) ∧
    (LRUCache.has s now k).2.cache
      = s.cache.filter (fun p => !LRUCache.isExpired now p.2) ∧
    (LRUCache.has s now k).2.stats.hits = s.stats.hits ∧
    (LRUCache.has s now k).2.stats.misses = s.stats.misses ∧
    (LRUCache.has s now k).2.stats.sets = s.stats.sets ∧
    (LRUCache.has s now k).2.stats.deletes = s.stats.deletes +
      (s.cache.length
        - (s.cache.filter (fun p => !LRUCache.isExpired now p.2)).length) ∧
    ((∀ p ∈ s.cache, now ≤ p.2.expiry) → (LRUCache.has s now k).2 = s) := by
  have hsnd := LRUCache.has_snd s now k
  have hchar : jsLookup (LRUCache.evictExpired s now).cache k
      = (jsLookup s.cache k).filter (fun e => !LRUCache.isExpired now e) := by
    rw [LRUCache.evictExpired_cache]
    exact jsLookup_filter_nodup _ hwf
  refine ⟨?_, by rw [hsnd]; rfl, by rw [hsnd]; rfl, by rw [hsnd]; rfl,
    by rw [hsnd]; rfl, by rw [hsnd]; rfl,
    fun hlive => by rw [hsnd]; exact LRUCache.evictExpired_of_live hlive⟩
  constructor
  · intro h1
    cases hc : jsLookup s.cache k with
    | none =>
      have hn : jsLookup (LRUCache.evictExpired s now).cache k = none := by
        rw [hchar, hc]
        rfl
      rw [LRUCache.has_false_of_none hn] at h1
      exact absurd h1 (by simp)
    | some e =>
      by_cases hl : now ≤ e.expiry
      · exact ⟨e, rfl, hl⟩
      · have hee : e.expiry < now := Nat.lt_of_not_le hl
        have hx : (!LRUCache.isExpired now e) = false := by
          simp [LRUCache.isExpired, hee]
        have hn : jsLookup (LRUCache.evictExpired s now).cache k = none := by
          rw [hchar, hc]
          simp [Option.filter, hx]
        rw [LRUCache.has_false_of_none hn] at h1
        exact absurd h1 (by simp)
  · rintro ⟨e, hc, hl⟩
    have hn : jsLookup (LRUCache.evictExpired s now).cache k = some e := by
      rw [hchar, hc]
      simp [Option.filter, (LRUCache.not_isExpired_iff now e).mpr hl]
    exact LRUCache.has_true hn hl

/-- C4 witness: on a duplicate-free cache holding one live entry, `has`
reports true and — nothing being expired — changes nothing at all. -/
theorem c4_has_amended_witness :
    (({ mkLRUCache 3 100 with
        cache := [("a", ⟨JsVal.vnum 1, 50⟩)] } : LRUCache).has 20 "a").2
      = { mkLRUCache 3 100 with cache := [("a", ⟨JsVal.vnum 1, 50⟩)] } :=
  (c4_has_amended
    { mkLRUCache 3 100 with cache := [("a", ⟨JsVal.vnum 1, 50⟩)] }
    20 "a" (by decide)).2.2.2.2.2.2 (by decide)

/-! ### Claim C6 — getOrSet does not recompute a present value -/

/-- C6 counterexample: a key can be present and unexpired with the cached
value `null`; `get` then returns `null`, `getOrSet` takes that for a miss and
invokes the compute function (invocation count 1, where the claim demands 0). -/
theorem c6_counterexample_cached_null :
    jsLookup ({ mkLRUCache 3 100 with
        cache := [("k", ⟨JsVal.vnull, 100⟩)] } : LRUCache).cache "k"
      = some ⟨JsVal.vnull, 100⟩ ∧
    (cacheHelpers.getOrSet
      { mkLRUCache 3 100 with cache := [("k", ⟨JsVal.vnull, 100⟩)] }
      0 "k" (Except.ok (JsVal.vnum 5)) none).2.2 = 1 := by
  decide

/-- C6 (amended): if the key is present and unexpired with a NON-NULL cached
value when `getOrSet` is called, `getOrSet` returns that cached value and
does not invoke the compute function at all. -/
theorem c6_get_or_set_amended (s : LRUCache) (now : Nat) (k : String)
    (fres : Except String JsVal) (ttl : Option Nat) (e : CacheEntry)
    (hk : jsLookup s.cache k = some e) (hlive : now ≤ e.expiry)
    (hv : e.data ≠ JsVal.vnull) :
    (cacheHelpers.getOrSet s now k fres ttl).1 = Except.ok e.data ∧
    (cacheHelpers.getOrSet s now k fres ttl).2.2 = 0 := by
  have hfl : jsLookup (LRUCache.evictExpired s now).cache k = some e := by
    rw [LRUCache.evictExpired_cache]
    exact jsLookup_filter_of_some hk ((LRUCache.not_isExpired_iff now e).mpr hlive)
  have hg := LRUCache.get_hit hfl hlive
  unfold cacheHelpers.getOrSet
  rw [hg]
  simp [hv]

/-- C6 witness: a cached non-null value short-circuits `getOrSet`. -/
theorem c6_get_or_set_amended_witness :
    (cacheHelpers.getOrSet
      { mkLRUCache 3 100 with cache := [("k", ⟨JsVal.vnum 9, 100⟩)] }
      0 "k" (Except.ok (JsVal.vnum 5)) none).2.2 = 0 :=
  (c6_get_or_set_amended
    { mkLRUCache 3 100 with cache := [("k", ⟨JsVal.vnum 9, 100⟩)] }
    0 "k" (Except.ok (JsVal.vnum 5)) none ⟨JsVal.vnum 9, 100⟩
    (by decide) (by decide) (by decide)).2

/-! ### Claim C7 — getOrSet propagates compute failures and caches nothing -/

/-- C7: when the key misses (absent, or present only expired) and the compute
function raises, `getOrSet` propagates exactly that error (one invocation),
writes nothing: the resulting map is the lazy-sweep filter of the old one (so
every live entry is untouched and no key gains a value), `stats.sets` and
`stats.hits` are unchanged, and exactly the one miss is recorded; when
nothing was expired the stored entries are literally identical. -/
theorem c7_get_or_set_error (s : LRUCache) (now : Nat) (k : String)
    (ttl : Option Nat) (err : String)
    (hmiss : ∀ e : CacheEntry, (k, e) ∈ s.cache → e.expiry < now) :
    (cacheHelpers.getOrSet s now k (Except.error err) ttl).1
      = Except.error err ∧
    (cacheHelpers.getOrSet s now k (Except.error err) ttl).2.2 = 1 ∧
    (cacheHelpers.getOrSet s now k (Except.error err) ttl).2.1.cache
      = s.cache.filter (fun p => !LRUCache.isExpired now p.2) ∧
    (cacheHelpers.getOrSet s now k (Except.error err) ttl).2.1.stats.sets
      = s.stats.sets ∧
    (cacheHelpers.getOrSet s now k (Except.error err) ttl).2.1.stats.hits
      = s.stats.hits ∧
    (cacheHelpers.getOrSet s now k (Except.error err) ttl).2.1.stats.misses
      = s.stats.misses + 1 ∧
    ((∀ p ∈ s.cache, now ≤ p.2.expiry) →
      (cacheHelpers.getOrSet s now k (Except.error err) ttl).2.1.cache
        = s.cache) := by
  have hfl : jsLookup (LRUCache.evictExpired s now).cache k = none := by
    rw [LRUCache.evictExpired_cache]
    apply jsLookup_filter_of_all_false
    intro e hmem
    simp [LRUCache.isExpired, hmiss e hmem]
  have hg := LRUCache.get_miss hfl
  unfold cacheHelpers.getOrSet
  rw [hg]
  refine ⟨by simp, by simp, rfl, rfl, rfl, rfl, fun hlive => ?_⟩
  have : s.cache.filter (fun p => !LRUCache.isExpired now p.2) = s.cache := by
    rw [List.filter_eq_self]
    intro p hp
    exact (LRUCache.not_isExpired_iff now p.2).mpr (hlive p hp)
  exact this

/-- C7 witness: on the empty instance the failing compute function's error
comes straight back and the map stays empty. -/
theorem c7_get_or_set_error_witness :
    (cacheHelpers.getOrSet (mkLRUCache 4 100) 7 "k"
        (Except.error "db down") none).1 = Except.error "db down" ∧
    (cacheHelpers.getOrSet (mkLRUCache 4 100) 7 "k"
        (Except.error "db down") none).2.1.cache = [] :=
  ⟨(c7_get_or_set_error (mkLRUCache 4 100) 7 "k" none "db down"
      (by simp [mkLRUCache])).1,
   by
    have h := (c7_get_or_set_error (mkLRUCache 4 100) 7 "k" none "db down"
      (by simp [mkLRUCache])).2.2.2.2.2.2 (by simp [mkLRUCache])
    simpa [mkLRUCache] using h⟩

/-! ### Claim C10 — stored null is indistinguishable from a miss -/

/-- C10: `get` signals absence by returning `null`, so a stored `null` value
(here on a present, unexpired key) yields the same `null` return as a genuine
miss — only the counters differ: the stored-null call counts a hit, the miss
call counts a miss — and consequently `getOrSet` treats the cached `null` as
a miss and invokes the compute function (once) for that key on every call. -/
theorem c10_null_indistinguishable (s s2 : LRUCache) (now : Nat) (k : String)
    (e : CacheEntry) (fres : Except String JsVal) (ttl : Option Nat)
    (hk : jsLookup s.cache k = some e) (hnull : e.data = JsVal.vnull)
    (hlive : now ≤ e.expiry)
    (habs : ∀ e2 : CacheEntry, (k, e2) ∈ s2.cache → e2.expiry < now) :
    (LRUCache.get s now k).1 = JsVal.vnull ∧
    (LRUCache.get s2 now k).1 = JsVal.vnull ∧
    (LRUCache.get s now k).2.stats.hits = s.stats.hits + 1 ∧
    (LRUCache.get s now k).2.stats.misses = s.stats.misses ∧
    (LRUCache.get s2 now k).2.stats.misses = s2.stats.misses + 1 ∧
    (LRUCache.get s2 now k).2.stats.hits = s2.stats.hits ∧
    (cacheHelpers.getOrSet s now k fres ttl).2.2 = 1 := by
  have hfl : jsLookup (LRUCache.evictExpired s now).cache k = some e := by
    rw [LRUCache.evictExpired_cache]
    exact jsLookup_filter_of_some hk ((LRUCache.not_isExpired_iff now e).mpr hlive)
  have hg := LRUCache.get_hit hfl hlive
  have hfl2 : jsLookup (LRUCache.evictExpired s2 now).cache k = none := by
    rw [LRUCache.evictExpired_cache]
    apply jsLookup_filter_of_all_false
    intro e2 hmem
    simp [LRUCache.isExpired, habs e2 hmem]
  have hg2 := LRUCache.get_miss hfl2
  refine ⟨by simp [hg, hnull], by simp [hg2],
    by simp [hg, LRUCache.evictExpired_hits],
    by simp [hg, LRUCache.evictExpired_misses],
    by simp [hg2, LRUCache.evictExpired_misses],
    by simp [hg2, LRUCache.evictExpired_hits], ?_⟩
  unfold cacheHelpers.getOrSet
  rw [hg, hnull]
  simp only [ne_eq, not_true_eq_false, if_false]
  cases fres with
  | error e3 => rfl
  | ok v =>
    dsimp only
    by_cases hv : v ≠ JsVal.vnull ∧ v ≠ JsVal.vundef
    · rw [if_pos hv]
    · rw [if_neg hv]

/-- C10 witness: a cache holding `null` for "k" versus the empty cache, both
queried at time 0. -/
theorem c10_null_indistinguishable_witness :
    (LRUCache.get
      { mkLRUCache 3 100 with cache := [("k", ⟨JsVal.vnull, 100⟩)] }
      0 "k").1 = JsVal.vnull ∧
    (cacheHelpers.getOrSet
      { mkLRUCache 3 100 with cache := [("k", ⟨JsVal.vnull, 100⟩)] }
      0 "k" (Except.ok (JsVal.vnum 5)) none).2.2 = 1 := by
  have h := c10_null_indistinguishable
    { mkLRUCache 3 100 with cache := [("k", ⟨JsVal.vnull, 100⟩)] }
    (mkLRUCache 3 100) 0 "k" ⟨JsVal.vnull, 100⟩
    (Except.ok (JsVal.vnum 5)) none
    (by decide) (by decide) (by decide) (by simp [mkLRUCache])
  exact ⟨h.1, h.2.2.2.2.2.2⟩

/-! ### Claim C9 — invalidatePostCaches -/

theorem delete_lookup_self (s : LRUCache) (k : String) :
    jsLookup (s.delete k).2.cache k = none := by
  unfold LRUCache.delete
  by_cases h : (jsLookup s.cache k).isSome
  · simp [h, jsMapDelete_lookup_self]
  · simp [h, Option.not_isSome_iff_eq_none.mp h]

theorem delete_preserves_none {s : LRUCache} {k : String} (k2 : String)
    (h : jsLookup s.cache k = none) :
    jsLookup (s.delete k2).2.cache k = none := by
  unfold LRUCache.delete
  by_cases hs : (jsLookup s.cache k2).isSome
  · by_cases hk : k2 = k
    · subst hk
      simp [hs, jsMapDelete_lookup_self]
    · simp only [hs, if_true]
      rw [jsMapDelete_lookup_other s.cache hk]
      exact h
  · simp [hs, h]

theorem deleteAll_preserves_none {k : String} (ks : List String)
    (s : LRUCache) (h : jsLookup s.cache k = none) :
    jsLookup (deleteAll s ks).cache k = none := by
  induction ks generalizing s with
  | nil => exact h
  | cons k2 rest ih => exact ih _ (delete_preserves_none k2 h)

theorem deleteAll_lookup_none_of_mem {ks : List String} {k : String}
    (s : LRUCache) (h : k ∈ ks) :
    jsLookup (deleteAll s ks).cache k = none := by
  induction ks generalizing s with
  | nil => cases h
  | cons k2 rest ih =>
    rcases List.mem_cons.mp h with h2 | h2
    · subst h2
      exact deleteAll_preserves_none rest _ (delete_lookup_self s k)
    · exact ih _ h2

/-- C9: after `invalidatePostCaches(P, U)` the post cache no longer holds the
key `post:P` — whatever was cached there before, `get` now returns absent —
and the post's stats key is gone from the query cache, the user cache holds
none of the swept `user_posts:U:page:limit` keys for pages 1..10 and limits
10/20/50, and the timeline cache holds none of the `timeline:U:page:10` keys
for pages 1..5. -/
theorem c9_invalidate_post_caches (sys : CacheSystem) (postId userId : String)
    (now : Nat) :
    jsLookup
        (cacheHelpers.invalidatePostCaches sys postId userId).postCache.cache
        (generateCacheKey.post postId) = none ∧
    (LRUCache.get
        (cacheHelpers.invalidatePostCaches sys postId userId).postCache
        now (generateCacheKey.post postId)).1 = JsVal.vnull ∧
    jsLookup
        (cacheHelpers.invalidatePostCaches sys postId userId).queryCache.cache
        (generateCacheKey.postStats postId) = none ∧
    (∀ page lim : Nat, 1 ≤ page → page ≤ 10 →
      lim = 10 ∨ lim = 20 ∨ lim = 50 →
      jsLookup
        (cacheHelpers.invalidatePostCaches sys postId userId).userCache.cache
        (generateCacheKey.userPosts userId page lim) = none) ∧
    (∀ page : Nat, 1 ≤ page → page ≤ 5 →
      jsLookup
        (cacheHelpers.invalidatePostCaches sys postId userId).timelineCache.cache
        (generateCacheKey.timeline userId page 10) = none) := by
  have hpost : jsLookup
      (cacheHelpers.invalidatePostCaches sys postId userId).postCache.cache
      (generateCacheKey.post postId) = none :=
    delete_lookup_self sys.postCache (generateCacheKey.post postId)
  refine ⟨hpost, ?_, delete_lookup_self sys.queryCache _, ?_, ?_⟩
  · have hev : jsLookup
        (LRUCache.evictExpired
          (cacheHelpers.invalidatePostCaches sys postId userId).postCache
          now).cache
        (generateCacheKey.post postId) = none := by
      rw [LRUCache.evictExpired_cache]
      exact jsLookup_filter_of_none _ hpost
    rw [LRUCache.get_miss hev]
  · intro page lim hp1 hp2 hlim
    apply deleteAll_lookup_none_of_mem
    unfold cacheHelpers.userPostsSweep
    rw [List.mem_flatMap]
    refine ⟨page, by simp; omega, ?_⟩
    rw [List.mem_map]
    exact ⟨lim, by rcases hlim with h | h | h <;> simp [h], rfl⟩
  · intro page hp1 hp2
    apply deleteAll_lookup_none_of_mem
    unfold cacheHelpers.timelineSweep
    rw [List.mem_map]
    exact ⟨page, by simp; omega, rfl⟩

/-- C9 witness: a concrete sweep instance — page 3, limit 20 of the user's
posts cache is gone after invalidation, as is the post's own key. -/
theorem c9_invalidate_post_caches_witness :
    jsLookup
      (cacheHelpers.invalidatePostCaches
        { postCache :=
            { mkLRUCache 5 100 with cache := [("post:p1", ⟨JsVal.vnum 1, 100⟩)] },
          userCache :=
            { mkLRUCache 5 100 with
                cache := [("user_posts:u1:3:20", ⟨JsVal.vnum 2, 100⟩)] },
          timelineCache := mkLRUCache 5 100,
          queryCache := mkLRUCache 5 100 } "p1" "u1").userCache.cache
      (generateCacheKey.userPosts "u1" 3 20) = none :=
  (c9_invalidate_post_caches
    { postCache :=
        { mkLRUCache 5 100 with cache := [("post:p1", ⟨JsVal.vnum 1, 100⟩)] },
      userCache :=
        { mkLRUCache 5 100 with
            cache := [("user_posts:u1:3:20", ⟨JsVal.vnum 2, 100⟩)] },
      timelineCache := mkLRUCache 5 100,
      queryCache := mkLRUCache 5 100 } "p1" "u1" 0).2.2.2.1
    3 20 (by decide) (by decide) (Or.inr (Or.inl rfl))

/-! ### Claim C1 — capacity invariant and LRU eviction -/

theorem jsMapDelete_preserves_none {l : JsMap} {k : String} (k2 : String)
    (h : jsLookup l k = none) : jsLookup (jsMapDelete l k2) k = none := by
  by_cases hk : k2 = k
  · subst hk
    exact jsMapDelete_lookup_self l k2
  · rw [jsMapDelete_lookup_other l hk]
    exact h

theorem set_cache_length_le {s : LRUCache} {c : Nat} (now : Nat) (k : String)
    (v : JsVal) (ct : Option Nat) (hms : s.maxSize = c) (hc : 1 ≤ c)
    (hlen : s.cache.length ≤ c) :
    (LRUCache.set s now k v ct).2.cache.length ≤ c := by
  have hlen1 : (LRUCache.evictExpired s now).cache.length ≤ c := by
    rw [LRUCache.evictExpired_cache]
    exact le_trans (List.length_filter_le _ _) hlen
  unfold LRUCache.set
  dsimp only
  by_cases hcond : (LRUCache.evictExpired s now).maxSize ≤
      (LRUCache.evictExpired s now).cache.length ∧
      ¬(jsLookup (LRUCache.evictExpired s now).cache k).isSome = true
  · rw [if_pos hcond]
    obtain ⟨hfull, habs⟩ := hcond
    rw [LRUCache.evictExpired_maxSize, hms] at hfull
    have habs2 : jsLookup (LRUCache.evictExpired s now).cache k = none :=
      Option.not_isSome_iff_eq_none.mp habs
    cases hcache : (LRUCache.evictExpired s now).cache with
    | nil =>
      rw [hcache] at hfull
      simp at hfull
      omega
    | cons hd tl =>
      obtain ⟨fk, fe⟩ := hd
      rw [List.head?_cons]
      dsimp only
      unfold LRUCache.delete
      have hfks : (jsLookup (LRUCache.evictExpired s now).cache fk).isSome := by
        rw [hcache]
        simp [jsLookup]
      rw [if_pos hfks]
      dsimp only
      have hkn : jsLookup
          (jsMapDelete (LRUCache.evictExpired s now).cache fk) k = none :=
        jsMapDelete_preserves_none fk habs2
      rw [jsMapSet_length_of_none _ hkn]
      have : (jsMapDelete (LRUCache.evictExpired s now).cache fk).length
          < (LRUCache.evictExpired s now).cache.length :=
        jsMapDelete_length_lt hfks
      omega
  · rw [if_neg hcond]
    by_cases hk : (jsLookup (LRUCache.evictExpired s now).cache k).isSome
    · rw [jsMapSet_length_of_some _ hk]
      exact hlen1
    · have hnf : ¬(LRUCache.evictExpired s now).maxSize ≤
          (LRUCache.evictExpired s now).cache.length := by
        intro hfull
        exact hcond ⟨hfull, hk⟩
      rw [LRUCache.evictExpired_maxSize, hms] at hnf
      rw [jsMapSet_length_of_none _ (Option.not_isSome_iff_eq_none.mp hk)]
      omega

theorem applyCalls_length_le {s : LRUCache} {c : Nat} (calls : List SetCall)
    (hms : s.maxSize = c) (hc : 1 ≤ c) (hlen : s.cache.length ≤ c) :
    (applyCalls s calls).cache.length ≤ c := by
  induction calls generalizing s with
  | nil => exact hlen
  | cons call rest ih =>
    exact ih
      (by rw [LRUCache.set_maxSize]; exact hms)
      (set_cache_length_le call.now call.key call.value call.customTtl
        hms hc hlen)

/-- C1 counterexample: the claim quantifies over every instance, but with
capacity 0 the eviction branch finds nothing to evict (the map is empty) and
inserts anyway, so after one `set` the instance holds 1 > 0 entries. -/
theorem c1_counterexample_capacity_zero :
    ((mkLRUCache 0 100).set 0 "a" (JsVal.vnum 1) none).2.cache.length = 1 := by
  decide

theorem set_evicts_head (s : LRUCache) (now : Nat) (k : String) (v : JsVal)
    (ct : Option Nat) (fk : String) (fe : CacheEntry) (rest : JsMap)
    (hcache : (LRUCache.evictExpired s now).cache = (fk, fe) :: rest)
    (hfull : s.maxSize ≤ rest.length + 1)
    (habs : jsLookup ((fk, fe) :: rest) k = none)
    (hfk : fk ∉ keysOf rest) :
    (LRUCache.set s now k v ct).2.cache
      = rest ++ [(k, ⟨v, now + LRUCache.resolveTtl s ct⟩)] := by
  have hfkk : ¬fk = k := by
    intro hcontra
    rw [jsLookup] at habs
    rw [if_pos hcontra] at habs
    cases habs
  have habs2 : jsLookup (LRUCache.evictExpired s now).cache k = none := by
    rw [hcache]
    exact habs
  have hrestk : jsLookup rest k = none := by
    rw [jsLookup, if_neg hfkk] at habs
    exact habs
  unfold LRUCache.set
  dsimp only
  have hcond : (LRUCache.evictExpired s now).maxSize ≤
      (LRUCache.evictExpired s now).cache.length ∧
      ¬(jsLookup (LRUCache.evictExpired s now).cache k).isSome = true := by
    constructor
    · rw [LRUCache.evictExpired_maxSize, hcache]
      simpa using hfull
    · rw [habs2]
      simp
  rw [if_pos hcond]
  rw [hcache, List.head?_cons]
  dsimp only
  unfold LRUCache.delete
  have hfks : (jsLookup (LRUCache.evictExpired s now).cache fk).isSome := by
    rw [hcache]
    simp [jsLookup]
  rw [if_pos hfks]
  dsimp only
  have hdel : jsMapDelete (LRUCache.evictExpired s now).cache fk = rest := by
    rw [hcache]
    unfold jsMapDelete
    rw [if_pos rfl]
    exact jsMapDelete_of_none ((jsLookup_eq_none_iff rest fk).mpr hfk)
  rw [hdel]
  unfold jsMapSet
  rw [hrestk]
  simp

theorem set_cache_append_of_not_full (s : LRUCache) (now : Nat) (k : String)
    (v : JsVal) (ct : Option Nat)
    (hsmall : ¬(LRUCache.evictExpired s now).maxSize ≤
      (LRUCache.evictExpired s now).cache.length)
    (habs : jsLookup (LRUCache.evictExpired s now).cache k = none) :
    (LRUCache.set s now k v ct).2.cache
      = (LRUCache.evictExpired s now).cache
        ++ [(k, ⟨v, now + LRUCache.resolveTtl s ct⟩)] := by
  unfold LRUCache.set
  dsimp only
  rw [if_neg (fun hcond => hsmall hcond.1)]
  unfold jsMapSet
  rw [habs]
  simp

/-- C1 (amended, requiring capacity ≥ 1): starting from a fresh instance of
capacity `c ≥ 1`, after any sequence of `set` calls the map holds at most `c`
entries — hence at most `c` live ones at any query time `q` — and whenever a
`set` inserts a new key into a full, duplicate-free cache, exactly the single
least-recently-used entry (the head of the recency order) is evicted: the
surviving entries keep their order and the new key enters at the
most-recently-used end. -/
theorem c1_capacity_amended (c ttl0 : Nat) (hc : 1 ≤ c) (calls : List SetCall)
    (q : Nat) (s : LRUCache) (now : Nat) (k : String) (v : JsVal)
    (ct : Option Nat) (fk : String) (fe : CacheEntry) (rest : JsMap)
    (hcache : (LRUCache.evictExpired s now).cache = (fk, fe) :: rest)
    (hfull : s.maxSize ≤ rest.length + 1)
    (habs : jsLookup ((fk, fe) :: rest) k = none)
    (hfk : fk ∉ keysOf rest) :
    (applyCalls (mkLRUCache c ttl0) calls).cache.length ≤ c ∧
    ((applyCalls (mkLRUCache c ttl0) calls).cache.filter
        (fun p => !LRUCache.isExpired q p.2)).length ≤ c ∧
    (LRUCache.set s now k v ct).2.cache
      = rest ++ [(k, ⟨v, now + LRUCache.resolveTtl s ct⟩)] := by
  have hlen := applyCalls_length_le calls (rfl : (mkLRUCache c ttl0).maxSize = c)
    hc (by simp [mkLRUCache])
  exact ⟨hlen, le_trans (List.length_filter_le _ _) hlen,
    set_evicts_head s now k v ct fk fe rest hcache hfull habs hfk⟩

/-- C1 witness: a full capacity-2 cache holding x (oldest) then y; inserting
the new key k evicts exactly x and appends k at the most-recently-used end. -/
theorem c1_capacity_amended_witness :
    (LRUCache.set
      { maxSize := 2, ttl := 100,
        cache := [("x", ⟨JsVal.vnum 1, 100⟩), ("y", ⟨JsVal.vnum 2, 100⟩)],
        stats := ⟨0, 0, 0, 0⟩ } 0 "k" (JsVal.vnum 3) none).2.cache
      = [("y", ⟨JsVal.vnum 2, 100⟩)] ++ [("k", ⟨JsVal.vnum 3, 0 + 100⟩)] :=
  (c1_capacity_amended 2 100 (by decide) [] 0
    { maxSize := 2, ttl := 100,
      cache := [("x", ⟨JsVal.vnum 1, 100⟩), ("y", ⟨JsVal.vnum 2, 100⟩)],
      stats := ⟨0, 0, 0, 0⟩ } 0 "k" (JsVal.vnum 3) none
    "x" ⟨JsVal.vnum 1, 100⟩ [("y", ⟨JsVal.vnum 2, 100⟩)]
    (by decide) (by decide) (by decide) (by decide)).2.2

/-! ### Claim C2 — recency promotion -/

theorem mem_jsMapDelete {l : JsMap} {k : String} {p : String × CacheEntry}
    (h : p ∈ jsMapDelete l k) : p ∈ l := by
  induction l with
  | nil =>
    simp only [jsMapDelete] at h
    exact absurd h (List.not_mem_nil p)
  | cons hd tl ih =>
    obtain ⟨k2, e2⟩ := hd
    by_cases hk : k2 = k
    · simp only [jsMapDelete, if_pos hk] at h
      exact List.mem_cons_of_mem _ (ih h)
    · simp only [jsMapDelete, if_neg hk] at h
      rcases List.mem_cons.mp h with h2 | h2
      · exact h2 ▸ List.mem_cons_self _ _
      · exact List.mem_cons_of_mem _ (ih h2)

theorem mem_keysOf_jsMapSet {l : JsMap} {k2 nk : String} {e : CacheEntry}
    (h : k2 ∈ keysOf (jsMapSet l nk e)) : k2 ∈ keysOf l ∨ k2 = nk := by
  unfold jsMapSet at h
  by_cases hs : (jsLookup l nk).isSome
  · rw [if_pos hs, keysOf_jsMapReplace] at h
    exact Or.inl h
  · rw [if_neg hs, keysOf_append] at h
    rcases List.mem_append.mp h with h2 | h2
    · exact Or.inl h2
    · right
      simp only [keysOf, List.map_cons, List.map_nil, List.mem_singleton] at h2
      exact h2

theorem setMany_keeps_promoted (now : Nat) (k : String) (e : CacheEntry)
    (v : JsVal) :
    ∀ (ks : List String) (st : LRUCache) (pre post : JsMap),
      st.cache = pre ++ (k, e) :: post →
      (keysOf st.cache).Nodup →
      (∀ p ∈ st.cache, now ≤ p.2.expiry) →
      st.cache.length ≤ st.maxSize →
      post.length + ks.length + 1 = st.maxSize →
      (∀ nk ∈ ks, nk ∉ keysOf st.cache) →
      ks.Nodup →
      jsLookup (setMany st now ks v).cache k = some e := by
  intro ks
  induction ks with
  | nil =>
    intro st pre post hdecomp hnd hlive hlen hcount hfresh hksnd
    show jsLookup st.cache k = some e
    have hkeys : keysOf st.cache = keysOf pre ++ k :: keysOf post := by
      rw [hdecomp, keysOf_append]
      rfl
    rw [hkeys] at hnd
    have hkpre : k ∉ keysOf pre := by
      rw [List.nodup_append] at hnd
      intro hmem
      exact hnd.2.2 hmem (List.mem_cons_self k _)
    rw [hdecomp]
    rw [jsLookup_append_of_none _ ((jsLookup_eq_none_iff pre k).mpr hkpre)]
    simp [jsLookup]
  | cons nk rest ih =>
    intro st pre post hdecomp hnd hlive hlen hcount hfresh hksnd
    have hev : LRUCache.evictExpired st now = st :=
      LRUCache.evictExpired_of_live hlive
    have hnkabs : jsLookup st.cache nk = none :=
      (jsLookup_eq_none_iff _ _).mpr (hfresh nk (List.mem_cons_self _ _))
    simp only [List.length_cons] at hcount
    show jsLookup
      (setMany (LRUCache.set st now nk v none).2 now rest v).cache k = some e
    by_cases hfull : st.maxSize ≤ st.cache.length
    · -- the cache is full: the head of `pre` is evicted
      have hlentot : st.cache.length = pre.length + post.length + 1 := by
        rw [hdecomp]
        simp only [List.length_append, List.length_cons]
        omega
      have hprelen : pre.length = rest.length + 1 := by
        omega
      cases pre with
      | nil => simp at hprelen
      | cons fhd ptail =>
        obtain ⟨fk, fe⟩ := fhd
        simp only [List.length_cons] at hprelen hlentot
        have hcache2 : st.cache = (fk, fe) :: (ptail ++ (k, e) :: post) := by
          rw [hdecomp]
          rfl
        have hnd2 : (fk :: keysOf (ptail ++ (k, e) :: post)).Nodup := by
          have h2 := hnd
          rw [hcache2] at h2
          exact h2
        have hfknotin : fk ∉ keysOf (ptail ++ (k, e) :: post) :=
          (List.nodup_cons.mp hnd2).1
        have hltail : (ptail ++ (k, e) :: post).length
            = ptail.length + post.length + 1 := by
          simp only [List.length_append, List.length_cons]
          omega
        have hstep : (LRUCache.set st now nk v none).2.cache
            = (ptail ++ (k, e) :: post) ++ [(nk, ⟨v, now + st.ttl⟩)] :=
          set_evicts_head st now nk v none fk fe (ptail ++ (k, e) :: post)
            (by rw [hev, hcache2])
            (by rw [hltail]; omega)
            (by rw [← hcache2]; exact hnkabs)
            hfknotin
        have hnkA : nk ∉ keysOf (ptail ++ (k, e) :: post) := by
          intro hmem
          apply hfresh nk (List.mem_cons_self _ _)
          rw [hcache2]
          exact List.mem_cons_of_mem _ hmem
        apply ih (LRUCache.set st now nk v none).2 ptail
          (post ++ [(nk, ⟨v, now + st.ttl⟩)])
        · rw [hstep]
          simp
        · rw [hstep, keysOf_append, List.nodup_append]
          refine ⟨(List.nodup_cons.mp hnd2).2, by simp [keysOf], ?_⟩
          intro a ha hb
          have hank : a = nk := by simpa [keysOf] using hb
          subst hank
          exact hnkA ha
        · intro p hp
          rw [hstep] at hp
          rcases List.mem_append.mp hp with h2 | h2
          · apply hlive
            rw [hcache2]
            exact List.mem_cons_of_mem _ h2
          · have hp2 : p = (nk, ⟨v, now + st.ttl⟩) := by simpa using h2
            subst hp2
            simp
        · rw [hstep, LRUCache.set_maxSize]
          simp only [List.length_append, List.length_cons, List.length_nil]
          omega
        · rw [LRUCache.set_maxSize]
          simp only [List.length_append, List.length_cons, List.length_nil]
          omega
        · intro nk2 hmem hkeys2
          rw [hstep, keysOf_append] at hkeys2
          rcases List.mem_append.mp hkeys2 with h2 | h2
          · apply hfresh nk2 (List.mem_cons_of_mem _ hmem)
            rw [hcache2]
            exact List.mem_cons_of_mem _ h2
          · have hank : nk2 = nk := by simpa [keysOf] using h2
            subst hank
            exact (List.nodup_cons.mp hksnd).1 hmem
        · exact (List.nodup_cons.mp hksnd).2
    · -- the cache has room: the new key is appended, nothing is evicted
      have hstep : (LRUCache.set st now nk v none).2.cache
          = st.cache ++ [(nk, ⟨v, now + st.ttl⟩)] := by
        have h2 := set_cache_append_of_not_full st now nk v none
          (by rw [hev]; exact hfull) (by rw [hev]; exact hnkabs)
        rw [hev] at h2
        exact h2
      apply ih (LRUCache.set st now nk v none).2 pre
        (post ++ [(nk, ⟨v, now + st.ttl⟩)])
      · rw [hstep, hdecomp]
        simp
      · rw [hstep, keysOf_append, List.nodup_append]
        refine ⟨hnd, by simp [keysOf], ?_⟩
        intro a ha hb
        have hank : a = nk := by simpa [keysOf] using hb
        subst hank
        exact hfresh a (List.mem_cons_self _ _) ha
      · intro p hp
        rw [hstep] at hp
        rcases List.mem_append.mp hp with h2 | h2
        · exact hlive p h2
        · have hp2 : p = (nk, ⟨v, now + st.ttl⟩) := by simpa using h2
          subst hp2
          simp
      · rw [hstep, LRUCache.set_maxSize]
        simp only [List.length_append, List.length_cons, List.length_nil]
        omega
      · rw [LRUCache.set_maxSize]
        simp only [List.length_append, List.length_cons, List.length_nil]
        omega
      · intro nk2 hmem hkeys2
        rw [hstep, keysOf_append] at hkeys2
        rcases List.mem_append.mp hkeys2 with h2 | h2
        · exact hfresh nk2 (List.mem_cons_of_mem _ hmem) h2
        · have hank : nk2 = nk := by simpa [keysOf] using h2
          subst hank
          exact (List.nodup_cons.mp hksnd).1 hmem
      · exact (List.nodup_cons.mp hksnd).2

/-- C2 counterexample: capacity 2, the cache holds only `k` (unexpired,
default TTL 1000, fixed clock 0).  `get(k)` succeeds and promotes `k`, yet
inserting `capacity = 2` other new distinct keys ("x" then "y") evicts `k`
anyway: each insertion past capacity evicts the then-oldest entry, and after
two insertions every pre-existing entry — `k` included — is gone.  The claim
demands that `k` still be present. -/
theorem c2_counterexample_capacity_inserts_flush :
    (LRUCache.get
      { maxSize := 2, ttl := 1000, cache := [("k", ⟨JsVal.vnum 1, 1000⟩)],
        stats := ⟨0, 0, 0, 0⟩ } 0 "k").1 = JsVal.vnum 1 ∧
    jsLookup
      (setMany
        (LRUCache.get
          { maxSize := 2, ttl := 1000, cache := [("k", ⟨JsVal.vnum 1, 1000⟩)],
            stats := ⟨0, 0, 0, 0⟩ } 0 "k").2
        0 ["x", "y"] (JsVal.vnum 9)).cache "k" = none := by
  decide

/-- C2 (amended): for a duplicate-free cache within its capacity whose
entries are all unexpired at the (fixed) clock, holding key `k`: a successful
`get(k)` followed by inserting `capacity − 1` other new distinct keys leaves
`k` present with its entry intact — the `get` promoted `k` to
most-recently-used, so the `capacity − 1` evictions (at most) hit only the
other entries.  (Inserting `capacity` new keys, as the claim literally
states, necessarily evicts `k`; see the counterexample.) -/
theorem c2_recency_amended (s : LRUCache) (now : Nat) (k : String)
    (e : CacheEntry) (v : JsVal) (newKeys : List String)
    (hwf : (keysOf s.cache).Nodup)
    (hsize : s.cache.length ≤ s.maxSize)
    (hlive : ∀ p ∈ s.cache, now ≤ p.2.expiry)
    (hk : jsLookup s.cache k = some e)
    (hcount : newKeys.length + 1 = s.maxSize)
    (hknd : newKeys.Nodup)
    (hfresh : ∀ nk ∈ newKeys, nk ∉ keysOf s.cache) :
    (LRUCache.get s now k).1 = e.data ∧
    jsLookup (setMany (LRUCache.get s now k).2 now newKeys v).cache k
      = some e := by
  have hev : LRUCache.evictExpired s now = s :=
    LRUCache.evictExpired_of_live hlive
  have hl : now ≤ e.expiry := hlive (k, e) (jsLookup_mem hk)
  have hfl : jsLookup (LRUCache.evictExpired s now).cache k = some e := by
    rw [hev]
    exact hk
  have hg := LRUCache.get_hit hfl hl
  have hmv : LRUCache.moveToFront (LRUCache.evictExpired s now).cache k
      = jsMapDelete s.cache k ++ [(k, e)] := by
    rw [hev]
    unfold LRUCache.moveToFront
    rw [hk]
  have hkmem : k ∈ keysOf s.cache :=
    List.mem_map_of_mem Prod.fst (jsLookup_mem hk)
  refine ⟨by rw [hg], ?_⟩
  rw [hg]
  apply setMany_keeps_promoted now k e v newKeys _ (jsMapDelete s.cache k) []
  · dsimp only
    rw [hmv]
  · dsimp only
    rw [hmv, keysOf_append, List.nodup_append]
    refine ⟨nodup_keysOf_jsMapDelete k hwf, by simp [keysOf], ?_⟩
    intro a ha hb
    have hak : a = k := by
      simp only [keysOf, List.map_cons, List.map_nil, List.mem_singleton] at hb
      exact hb
    exact not_mem_keysOf_jsMapDelete s.cache k (by rwa [hak] at ha)
  · dsimp only
    intro p hp
    rw [hmv] at hp
    rcases List.mem_append.mp hp with h2 | h2
    · exact hlive p (mem_jsMapDelete h2)
    · have hp2 : p = (k, e) := by simpa using h2
      rw [hp2]
      exact hl
  · dsimp only
    rw [hmv, LRUCache.evictExpired_maxSize]
    have hdel : (jsMapDelete s.cache k).length < s.cache.length :=
      jsMapDelete_length_lt (by rw [hk]; rfl)
    simp only [List.length_append, List.length_cons, List.length_nil]
    omega
  · dsimp only
    rw [LRUCache.evictExpired_maxSize]
    simp only [List.length_nil]
    omega
  · dsimp only
    intro nk hmem hkeys2
    rw [hmv, keysOf_append] at hkeys2
    rcases List.mem_append.mp hkeys2 with h2 | h2
    · exact hfresh nk hmem (mem_keysOf_jsMapDelete h2)
    · have hnk : nk = k := by
        simp only [keysOf, List.map_cons, List.map_nil, List.mem_singleton] at h2
        exact h2
      exact hfresh nk hmem (by rwa [hnk])
  · exact hknd

/-- C2 witness: capacity 2, the cache holding only `k`; after `get(k)` one
new key "x" is inserted and `k` survives with its entry. -/
theorem c2_recency_amended_witness :
    jsLookup
      (setMany
        (LRUCache.get
          { maxSize := 2, ttl := 1000, cache := [("k", ⟨JsVal.vnum 1, 1000⟩)],
            stats := ⟨0, 0, 0, 0⟩ } 0 "k").2
        0 ["x"] (JsVal.vnum 9)).cache "k" = some ⟨JsVal.vnum 1, 1000⟩ :=
  (c2_recency_amended
    { maxSize := 2, ttl := 1000, cache := [("k", ⟨JsVal.vnum 1, 1000⟩)],
      stats := ⟨0, 0, 0, 0⟩ } 0 "k" ⟨JsVal.vnum 1, 1000⟩ (JsVal.vnum 9) ["x"]
    (by decide) (by decide) (by decide) (by decide) (by decide) (by decide)
    (by decide)).2
